import Mathlib

/-!
Verification development for the GraphQL AI chat API (TypeScript,
Cloudflare-Workers style edge service).

The embedding follows the source files:

* `src/utils/index.ts`        — `generateId`, `extractVariableFromQuery`
* `src/services/deepseek.ts`  — `DeepSeekService.getChatCompletion` /
                                `callDeepSeekAPI` (SSE decoding into a
                                normalized event stream)
* `src/graphql/schema.ts`     — `executeGraphQL` (operation dispatch by
                                substring containment), `handleSendMessage`
                                (send-message pipeline), the in-memory
                                session store `chatSessions`
* `src/handlers/graphql.ts`   — `handleGraphQLRequest` (HTTP boundary)

Modelling conventions:

* Timestamps: `new Date().toISOString()` is modelled by a strictly
  increasing `Nat` clock carried in the environment; every call to the
  wall clock ticks it.  ISO-8601 rendering is injective and
  order-preserving, so a session's `createdAt`/`updatedAt` strings are
  represented by their time points.  Where the textual form of a
  timestamp is embedded in an event payload, the numeral rendering
  `isoStr` stands in for the ISO string.
* `generateId` (random + time suffix) is modelled by a fresh-counter
  supply; ids are unique by construction, exactly the property the code
  relies on.
* The external completion endpoint's HTTP answer (`fetch` response) is an
  explicit input `Upstream` of each run: a status flag plus the decoded
  text chunks of the response body.
* JavaScript `Map` becomes an association list with unique keys
  (insertion replaces in place, mirroring `Map.set`).
* Asynchronous token relay is modelled at full consumption: the
  `TransformStream` relay of `handleSendMessage` concatenates every chunk
  it reads into the assistant message, and the delivered stream equals
  the adapter's enqueued chunk sequence (consumer keeps pace).
-/

/-! ## JavaScript string primitives -/

/-- Whitespace class of JavaScript `\s` / `String.prototype.trim`
(restricted to its ASCII members, the only ones the service ever sees). -/
def jsSpace (c : Char) : Bool :=
  c = ' ' || c = '\t' || c = '\n' || c = '\r' || c = '\x0b' || c = '\x0c'

/-- JavaScript `String.prototype.trim`. -/
def jsTrim (s : String) : String :=
  ⟨((s.data.dropWhile jsSpace).reverse.dropWhile jsSpace).reverse⟩

/-- ASCII lower-casing, the effect of the regex `i` flag on the variable
names the service uses. -/
def asciiLower (c : Char) : Char :=
  if 'A' ≤ c ∧ c ≤ 'Z' then Char.ofNat (c.toNat + 32) else c

/-- Case-insensitive character comparison. -/
def ciEq (a b : Char) : Bool := asciiLower a = asciiLower b

/-- Does `pat` occur at the head of `cs`? -/
def headMatch : List Char → List Char → Bool
  | [], _ => true
  | _ :: _, [] => false
  | a :: as, b :: bs => a = b && headMatch as bs

/-- Does `pat` occur anywhere in `cs`? -/
def hasSub (pat : List Char) : List Char → Bool
  | [] => headMatch pat []
  | c :: cs => headMatch pat (c :: cs) || hasSub pat cs

/-- Model of `queryStr.includes(pat)` — substring containment. -/
def containsSubstr (s pat : String) : Bool :=
  hasSub pat.data s.data

/-! ## `extractVariableFromQuery` (src/utils/index.ts)

The source matches the query against the regular expression
`` `${variableName}:\s*"([^"]*)"` `` with the `i` flag and returns the
first capture.  The pattern is deterministic (a literal name, a literal
colon, greedy whitespace, a quoted run of non-quote characters), so the
JavaScript leftmost-match semantics is a positional scan. -/

/-- Consume `name` case-insensitively from the front of `cs`. -/
def dropCi : List Char → List Char → Option (List Char)
  | [], cs => some cs
  | _ :: _, [] => none
  | n :: ns, c :: cs => if ciEq n c then dropCi ns cs else none

/-- Capture `[^"]*"`: the characters before the next quote, if a closing
quote exists. -/
def takeQuoted : List Char → Option (List Char)
  | [] => none
  | c :: cs => if c = '"' then some [] else (takeQuoted cs).map (c :: ·)

/-- Match `name:\s*"([^"]*)"` at the head of `cs`, returning the capture. -/
def matchPatAt (name cs : List Char) : Option (List Char) :=
  match dropCi name cs with
  | none => none
  | some rest =>
    match rest with
    | ':' :: rest2 =>
      match rest2.dropWhile jsSpace with
      | '"' :: rest3 => takeQuoted rest3
      | _ => none
    | _ => none

/-- Leftmost scan of `matchPatAt` over every start position. -/
def scanExtract (name : List Char) : List Char → Option (List Char)
  | [] => matchPatAt name []
  | c :: cs =>
    match matchPatAt name (c :: cs) with
    | some r => some r
    | none => scanExtract name cs

/-- Model of `extractVariableFromQuery(query, variableName)` from
`src/utils/index.ts`: first case-insensitive occurrence of
`variableName: "…"` in the query text, or `null`. -/
def extractVariableFromQuery (query variableName : String) : Option String :=
  (scanExtract variableName.data query.data).map (⟨·⟩)

/-! ## JavaScript values for GraphQL variables -/

/-- The payloads a `variables` record can carry at the points the service
reads it (`Record<string, any>`, restricted to JSON scalars). -/
inductive JsVal where
  | str (s : String)
  | num (n : Int)
  | boolean (b : Bool)
  | null
deriving DecidableEq

/-- JavaScript truthiness of a `JsVal`. -/
def truthy : JsVal → Bool
  | .str s => !s.isEmpty
  | .num n => n ≠ 0
  | .boolean b => b
  | .null => false

/-- Rendering used by template literals such as `` `Session ${id} not found` ``. -/
def jsDisplay : JsVal → String
  | .str s => s
  | .num n => toString n
  | .boolean true => "true"
  | .boolean false => "false"
  | .null => "null"

/-- A GraphQL `variables` object. -/
def Vars := List (String × JsVal)

/-- Property lookup on a variables object (keys are unique). -/
def varsGet (vars : Vars) (k : String) : Option JsVal :=
  match vars with
  | [] => none
  | (k', v) :: rest => if k' = k then some v else varsGet rest k

/-- The argument-resolution idiom of `schema.ts`:
`variables.name || extractVariableFromQuery(query, 'name')`.
A falsy structured value falls through to the raw-text extraction;
`none` models the resulting `null`/`undefined`. -/
def resolveArg (vars : Vars) (query : String) (name : String) : Option JsVal :=
  match varsGet vars name with
  | some v => if truthy v then some v else (extractVariableFromQuery query name).map .str
  | none => (extractVariableFromQuery query name).map .str

/-! ## JSON (`JSON.parse` / `JSON.stringify`)

The SSE decoder of `deepseek.ts` parses each `data:` payload with
`JSON.parse` and re-serializes its own event markers with
`JSON.stringify`.  Numbers are kept as their source lexeme; no claim
involves numeric payloads beyond truthiness. -/

inductive Json where
  | null
  | jbool (b : Bool)
  | jnum (lexeme : String)
  | jstr (s : String)
  | jarr (xs : List Json)
  | jobj (fields : List (String × Json))

/-- Is a numeric lexeme the number zero (sign, fraction and exponent do
not change zeroness)? -/
def numLexIsZero (lex : String) : Bool :=
  let mantissa := (lex.data.filter (fun c => c ≠ '-' ∧ c ≠ '.')).takeWhile
    (fun c => c ≠ 'e' ∧ c ≠ 'E')
  mantissa.all (· = '0')

/-- JavaScript truthiness of a parsed JSON value. -/
def jsTruthy : Json → Bool
  | .null => false
  | .jbool b => b
  | .jnum lex => !numLexIsZero lex
  | .jstr s => !s.isEmpty
  | .jarr _ => true
  | .jobj _ => true

/-- Property access `obj[k]` (objects only; duplicate keys resolve to the
last occurrence, as in `JSON.parse`). -/
def jget (j : Json) (k : String) : Option Json :=
  match j with
  | .jobj fs => fs.foldl (fun acc p => if p.1 = k then some p.2 else acc) none
  | _ => none

/-- Index access `arr?.[i]`. -/
def jIndex (j : Json) (i : Nat) : Option Json :=
  match j with
  | .jarr xs => xs.get? i
  | _ => none

/-- JSON whitespace (`ws` of RFC 8259, as accepted by `JSON.parse`). -/
def jsonWs (c : Char) : Bool := c = ' ' || c = '\t' || c = '\n' || c = '\r'

def hexVal (c : Char) : Option Nat :=
  if '0' ≤ c ∧ c ≤ '9' then some (c.toNat - '0'.toNat)
  else if 'a' ≤ c ∧ c ≤ 'f' then some (c.toNat - 'a'.toNat + 10)
  else if 'A' ≤ c ∧ c ≤ 'F' then some (c.toNat - 'A'.toNat + 10)
  else none

/-- Parse the body of a JSON string (after the opening quote), returning
the decoded characters and the remainder after the closing quote. -/
def parseStrAux (acc : List Char) : List Char → Option (List Char × List Char)
  | [] => none
  | c :: cs =>
    if c = '"' then some (acc.reverse, cs)
    else if c = '\\' then
      match cs with
      | [] => none
      | e :: cs2 =>
        match e with
        | '"' => parseStrAux ('"' :: acc) cs2
        | '\\' => parseStrAux ('\\' :: acc) cs2
        | '/' => parseStrAux ('/' :: acc) cs2
        | 'b' => parseStrAux ('\x08' :: acc) cs2
        | 'f' => parseStrAux ('\x0c' :: acc) cs2
        | 'n' => parseStrAux ('\n' :: acc) cs2
        | 'r' => parseStrAux ('\x0d' :: acc) cs2
        | 't' => parseStrAux ('\t' :: acc) cs2
        | 'u' =>
          match cs2 with
          | h1 :: h2 :: h3 :: h4 :: cs3 =>
            match hexVal h1, hexVal h2, hexVal h3, hexVal h4 with
            | some a, some b, some c3, some d =>
              parseStrAux (Char.ofNat (a * 4096 + b * 256 + c3 * 16 + d) :: acc) cs3
            | _, _, _, _ => none
          | _ => none
        | _ => none
    else if c.toNat < 32 then none
    else parseStrAux (c :: acc) cs

def isDigit (c : Char) : Bool := '0' ≤ c && c ≤ '9'

/-- Parse a JSON number (strict grammar: `-? (0 | [1-9][0-9]*) frac? exp?`),
returning its lexeme. -/
def parseNumber (cs : List Char) : Option (Json × List Char) :=
  let (sign, cs1) :=
    match cs with
    | '-' :: rest => (['-'], rest)
    | _ => ([], cs)
  match cs1 with
  | [] => none
  | c :: rest =>
    if c = '0' then
      (parseFracExp rest).map (fun (tail, r) => (.jnum ⟨sign ++ '0' :: tail⟩, r))
    else if isDigit c then
      let digits := rest.takeWhile isDigit
      let rest2 := rest.dropWhile isDigit
      (parseFracExp rest2).map
        (fun (tail, r) => (.jnum ⟨sign ++ c :: digits ++ tail⟩, r))
    else none
where
  /-- Optional fraction and exponent; returns their lexeme characters. -/
  parseFracExp (cs : List Char) : Option (List Char × List Char) :=
    let (fracPart, cs1) :=
      match cs with
      | '.' :: rest =>
        (some ('.' :: rest.takeWhile isDigit), rest.dropWhile isDigit)
      | _ => (none, cs)
    match fracPart with
    | some ['.'] => none
    | _ =>
      let frac := (fracPart.getD []).drop 0
      match cs1 with
      | 'e' :: rest => expPart frac 'e' rest
      | 'E' :: rest => expPart frac 'E' rest
      | _ => some (frac, cs1)
  expPart (frac : List Char) (e : Char) (rest : List Char) :
      Option (List Char × List Char) :=
    let (sgn, rest2) :=
      match rest with
      | '+' :: r => (['+'], r)
      | '-' :: r => (['-'], r)
      | _ => ([], rest)
    let ds := rest2.takeWhile isDigit
    if ds.isEmpty then none
    else some (frac ++ e :: sgn ++ ds, rest2.dropWhile isDigit)

mutual

/-- Recursive-descent `JSON.parse`; `fuel` bounds the nesting depth and
is chosen large enough that it never runs out on the given input. -/
def parseValue : Nat → List Char → Option (Json × List Char)
  | 0, _ => none
  | fuel + 1, cs =>
    match cs.dropWhile jsonWs with
    | 'n' :: 'u' :: 'l' :: 'l' :: rest => some (.null, rest)
    | 't' :: 'r' :: 'u' :: 'e' :: rest => some (.jbool true, rest)
    | 'f' :: 'a' :: 'l' :: 's' :: 'e' :: rest => some (.jbool false, rest)
    | '"' :: rest => (parseStrAux [] rest).map (fun (s, r) => (.jstr ⟨s⟩, r))
    | '[' :: rest =>
      (match (rest.dropWhile jsonWs) with
       | ']' :: r => some (.jarr [], r)
       | _ => (parseItems fuel rest).map (fun (xs, r) => (.jarr xs, r)))
    | '{' :: rest =>
      (match (rest.dropWhile jsonWs) with
       | '}' :: r => some (.jobj [], r)
       | _ => (parseFields fuel rest).map (fun (fs, r) => (.jobj fs, r)))
    | other => parseNumber other

/-- One-or-more comma-separated array items followed by `]`. -/
def parseItems : Nat → List Char → Option (List Json × List Char)
  | 0, _ => none
  | fuel + 1, cs =>
    match parseValue fuel cs with
    | none => none
    | some (v, rest) =>
      match rest.dropWhile jsonWs with
      | ',' :: rest2 =>
        (parseItems fuel rest2).map (fun (xs, r) => (v :: xs, r))
      | ']' :: rest2 => some ([v], rest2)
      | _ => none

/-- One-or-more comma-separated object members followed by `}`. -/
def parseFields : Nat → List Char → Option (List (String × Json) × List Char)
  | 0, _ => none
  | fuel + 1, cs =>
    match cs.dropWhile jsonWs with
    | '"' :: rest =>
      match parseStrAux [] rest with
      | none => none
      | some (key, rest2) =>
        match rest2.dropWhile jsonWs with
        | ':' :: rest3 =>
          match parseValue fuel rest3 with
          | none => none
          | some (v, rest4) =>
            match rest4.dropWhile jsonWs with
            | ',' :: rest5 =>
              (parseFields fuel rest5).map (fun (fs, r) => ((⟨key⟩, v) :: fs, r))
            | '}' :: rest5 => some ([(⟨key⟩, v)], rest5)
            | _ => none
        | _ => none
    | _ => none

end

/-- Model of `JSON.parse(data)` over the characters of `data`: a value followed by
nothing but whitespace, else a parse error (`none`). -/
def parseJson (cs : List Char) : Option Json :=
  match parseValue (2 * cs.length + 8) cs with
  | some (v, rest) => if (rest.dropWhile jsonWs).isEmpty then some v else none
  | none => none

/-- Escaping of `JSON.stringify` for one character of a string. -/
def jsonEscapeChar (c : Char) : String :=
  if c = '"' then "\\\""
  else if c = '\\' then "\\\\"
  else if c = '\x08' then "\\b"
  else if c = '\x0c' then "\\f"
  else if c = '\n' then "\\n"
  else if c = '\x0d' then "\\r"
  else if c = '\t' then "\\t"
  else if c.toNat < 32 then
    let hx := fun (n : Nat) => if n < 10 then toString n else String.singleton (Char.ofNat ('a'.toNat + n - 10))
    "\\u00" ++ hx (c.toNat / 16) ++ hx (c.toNat % 16)
  else String.singleton c

/-- Serialization by `JSON.stringify` of a string. -/
def jsonQuote (s : String) : String :=
  "\"" ++ String.join (s.data.map jsonEscapeChar) ++ "\""

mutual

/-- Serialization by `JSON.stringify` of a value (numbers keep their parsed lexeme). -/
def jsonStringify : Json → String
  | .null => "null"
  | .jbool true => "true"
  | .jbool false => "false"
  | .jnum lex => lex
  | .jstr s => jsonQuote s
  | .jarr xs => "[" ++ jsonStringifyList xs ++ "]"
  | .jobj fs => "\x7b" ++ jsonStringifyFields fs ++ "\x7d"

/-- Comma-joined serializations of array elements. -/
def jsonStringifyList : List Json → String
  | [] => ""
  | [x] => jsonStringify x
  | x :: y :: xs => jsonStringify x ++ "," ++ jsonStringifyList (y :: xs)

/-- Comma-joined serializations of object members. -/
def jsonStringifyFields : List (String × Json) → String
  | [] => ""
  | [(k, v)] => jsonQuote k ++ ":" ++ jsonStringify v
  | (k, v) :: f :: fs =>
    jsonQuote k ++ ":" ++ jsonStringify v ++ "," ++ jsonStringifyFields (f :: fs)

end

theorem sanity_parse :
    parseJson "\x7b\"choices\":[\x7b\"delta\":\x7b\"content\":\"Hello\"\x7d\x7d]\x7d".data
      = some (.jobj [("choices",
          .jarr [.jobj [("delta", .jobj [("content", .jstr "Hello")])]])]) := rfl

theorem sanity_stringify :
    jsonStringify (.jobj [("type", .jstr "content"), ("content", .jstr "Hello")])
      = "\x7b\"type\":\"content\",\"content\":\"Hello\"\x7d" := rfl

/-! ## Data model (src/types/index.ts) and environment -/

/-- A chat message.  `timestamp` is the time point of the ISO string the
source stores. -/
structure ChatMessage where
  id : String
  role : String
  content : String
  timestamp : Nat
deriving DecidableEq

/-- A chat session.  `createdAt` / `updatedAt` are the time points of the
ISO strings the source stores. -/
structure ChatSession where
  id : String
  messages : List ChatMessage
  createdAt : Nat
  updatedAt : Nat
deriving DecidableEq

/-- Process state: the module-level `chatSessions` map of
`src/graphql/schema.ts`, the wall clock, and the id supply backing
`generateId`. -/
structure Env where
  store : List (String × ChatSession)
  now : Nat
  nextId : Nat
deriving DecidableEq

/-- One call of `new Date().toISOString()`: observe the clock and advance
it (consecutive observations are strictly increasing). -/
def tick (e : Env) : Nat × Env := (e.now, { e with now := e.now + 1 })

/-- One call of `generateId()` from `src/utils/index.ts` (random + time
suffix, modelled as a fresh-counter supply). -/
def genId (e : Env) : String × Env :=
  ("id_" ++ toString e.nextId, { e with nextId := e.nextId + 1 })

/-- Lookup `chatSessions.get(k)`. -/
def mapGet (m : List (String × ChatSession)) (k : String) : Option ChatSession :=
  match m with
  | [] => none
  | (k', v) :: rest => if k' = k then some v else mapGet rest k

/-- Update `chatSessions.set(k, v)`: replace in place if present, else append
(JavaScript `Map` insertion order). -/
def mapSet (m : List (String × ChatSession)) (k : String) (v : ChatSession) :
    List (String × ChatSession) :=
  match m with
  | [] => [(k, v)]
  | (k', v') :: rest =>
    if k' = k then (k, v) :: rest else (k', v') :: mapSet rest k v

/-- Removal `chatSessions.delete(k)`: whether a removal occurred, and the map
afterwards. -/
def mapDelete (m : List (String × ChatSession)) (k : String) :
    Bool × List (String × ChatSession) :=
  match m with
  | [] => (false, [])
  | (k', v') :: rest =>
    if k' = k then (true, rest)
    else
      let (b, rest') := mapDelete rest k
      (b, (k', v') :: rest')

/-! ## Completion-service adapter (src/services/deepseek.ts)

`DeepSeekService.getChatCompletion` posts the conversation to the
completion endpoint and decodes its SSE body into a `ReadableStream` of
JSON-serialized event markers.  The decoded event sequence is modelled
as `SseEvent` values; `eventString` is the exact `JSON.stringify` text
the source enqueues for each.  The upstream HTTP answer is the explicit
input `Upstream`. -/

/-- The completion endpoint's HTTP answer: `ok`/`status` of the `fetch`
response, the error body text read when `!ok`, and the text-decoded
chunks of the streamed body (`none` models a missing body). -/
structure Upstream where
  ok : Bool
  status : Nat
  errorText : String
  body : Option (List String)
deriving DecidableEq

/-- Rendering of `new Date().toISOString()` inside event payloads: the
ISO string of time point `t` (represented by its numeral; the rendering
is injective and order-preserving). -/
def isoStr (t : Nat) : String := toString t

/-- A decoded adapter event: the source enqueues one JSON string per
event; the constructors record which enqueue site fired. -/
inductive SseEvent where
  | startEv (t : Nat)
  | contentEv (c : Json)
  | endEv (t : Nat)
  | errorEv (v : Json)

/-- The exact string the source enqueues for an event. -/
def eventString : SseEvent → String
  | .startEv t =>
    jsonStringify (.jobj [("type", .jstr "start"), ("timestamp", .jstr (isoStr t))])
  | .contentEv c =>
    jsonStringify (.jobj [("type", .jstr "content"), ("content", c)])
  | .endEv t =>
    jsonStringify (.jobj [("type", .jstr "end"), ("timestamp", .jstr (isoStr t))])
  | .errorEv v =>
    jsonStringify (.jobj [("type", .jstr "error"), ("error", v)])

/-- Decoder state of the `ReadableStream` `start` loop: the `isFirstChunk`
and `hasError` flags, the events enqueued so far, and the clock. -/
structure SseSt where
  isFirst : Bool
  hasError : Bool
  events : List SseEvent
  now : Nat

/-- Outcome of handling one complete line: continue with a new state, or
`controller.close()` was called mid-stream (sentinel or error payload)
and the loop returned. -/
inductive LineStep where
  | cont (st : SseSt)
  | halt (events : List SseEvent) (now : Nat)

/-- Access chain `parsed.choices?.[0]?.delta?.content`. -/
def deltaContent (parsed : Json) : Option Json :=
  ((jget parsed "choices").bind (jIndex · 0)).bind (fun d => (jget d "delta").bind (jget · "content"))

/-- The content branch of the decoder: on the first truthy content chunk
emit the synthetic start marker, then the content marker. -/
def contentStep (st : SseSt) (parsed : Json) : LineStep :=
  match deltaContent parsed with
  | some c =>
    if jsTruthy c then
      if st.isFirst then
        .cont { st with
          isFirst := false
          now := st.now + 1
          events := st.events ++ [.startEv st.now, .contentEv c] }
      else
        .cont { st with events := st.events ++ [.contentEv c] }
    else .cont st
  | none => .cont st

/-- Handle one complete line of the SSE body (the body of
`for (const line of lines)` in `getChatCompletion`).  A payload that is
the literal `[DONE]` closes the stream before any JSON parsing; an
`error` field yields an error marker and closes; a malformed payload
(including the literal `null`, whose `.error` access throws and is
caught by the same handler) yields an error marker and continues. -/
def handleLine (st : SseSt) (line : List Char) : LineStep :=
  if line.take 6 = "data: ".data then
    let data := line.drop 6
    if data = "[DONE]".data then .halt st.events st.now
    else
      match parseJson data with
      | none => .cont { st with events := st.events ++ [.errorEv (.jstr "数据解析错误")] }
      | some .null => .cont { st with events := st.events ++ [.errorEv (.jstr "数据解析错误")] }
      | some parsed =>
        match jget parsed "error" with
        | some errVal =>
          if jsTruthy errVal then
            let msg :=
              match jget errVal "message" with
              | some m => if jsTruthy m then m else Json.jstr "未知错误"
              | none => Json.jstr "未知错误"
            .halt (st.events ++ [.errorEv msg]) st.now
          else contentStep st parsed
        | none => contentStep st parsed
  else .cont st

/-- Process a list of complete lines, stopping early if the controller
closes. -/
def processLineList (st : SseSt) : List (List Char) → LineStep
  | [] => .cont st
  | l :: ls =>
    match handleLine st l with
    | .cont st' => processLineList st' ls
    | .halt evs n => .halt evs n

/-- Splitting `buffer.split('\n')`. -/
def splitNl : List Char → List (List Char)
  | [] => [[]]
  | c :: cs =>
    if c = '\n' then [] :: splitNl cs
    else
      match splitNl cs with
      | l :: ls => (c :: l) :: ls
      | [] => [[c]]

/-- The chunk loop of the decoder: append the chunk to the carry buffer,
split into lines, keep the trailing incomplete line as the new buffer,
and handle every complete line.  When the upstream body ends, enqueue
the end marker unless an error was seen. -/
def sseLoop (st : SseSt) (buffer : List Char) : List (List Char) → List SseEvent × Nat
  | [] =>
    if st.hasError then (st.events, st.now)
    else (st.events ++ [.endEv st.now], st.now + 1)
  | c :: cs =>
    let parts := splitNl (buffer ++ c)
    match processLineList st parts.dropLast with
    | .halt evs n => (evs, n)
    | .cont st' => sseLoop st' (parts.getLastD []) cs

/-- The fixed system instruction prepended to the history, and the wire
message list sent to the completion endpoint (lines 59–68 of
`deepseek.ts`). -/
def buildApiMessages (messages : List ChatMessage) : List (String × String) :=
  ("system",
    "You are a helpful AI assistant. Please provide accurate and helpful responses in Chinese.")
    :: messages.map (fun m => (m.role, m.content))

/-- Model of `DeepSeekService.getChatCompletion(messages)`: fail outright on a
non-ok status or a missing body; otherwise decode the SSE body into the
adapter's event sequence.  Returns the events together with the clock
after decoding. -/
def getChatCompletion (messages : List ChatMessage) (upstream : Upstream)
    (now : Nat) : Except String (List SseEvent × Nat) :=
  let _ := buildApiMessages messages
  if !upstream.ok then
    .error ("DeepSeek API 错误: " ++ toString upstream.status ++ " " ++ upstream.errorText)
  else
    match upstream.body with
    | none => .error "DeepSeek API 没有返回流式响应"
    | some chunks =>
      .ok (sseLoop ⟨true, false, [], now⟩ [] (chunks.map String.data))

/-- Convenience wrapper `callDeepSeekAPI` from `deepseek.ts` (直接调用 AI 服务). -/
def callDeepSeekAPI (messages : List ChatMessage) (upstream : Upstream)
    (now : Nat) : Except String (List SseEvent × Nat) :=
  getChatCompletion messages upstream now

theorem sanity_sse :
    getChatCompletion [] ⟨true, 200, "",
        some ["data: \x7b\"choices\":[\x7b\"delta\":\x7b\"content\":\"Hello\"\x7d\x7d]\x7d\n",
              "data: [DONE]\n"]⟩ 0
      = .ok ([.startEv 0, .contentEv (.jstr "Hello")], 1) := rfl

theorem sanity_sse_noSentinel :
    getChatCompletion [] ⟨true, 200, "",
        some ["data: \x7b\"choices\":[\x7b\"delta\":\x7b\"content\":\"Hi\"\x7d\x7d]\x7d\n"]⟩ 5
      = .ok ([.startEv 5, .contentEv (.jstr "Hi"), .endEv 6], 7) := rfl

/-! ## GraphQL results and the resolver (src/graphql/schema.ts) -/

/-- A value inside the `data` object of a GraphQL response.  Object
fields are kept as an ordered association (JavaScript object literals),
so the presence or absence of a key is observable. -/
inductive GqlValue where
  | nullV
  | boolV (b : Bool)
  | strV (s : String)
  | sessionV (s : ChatSession)
  | streamV (chunks : List String)
  | obj (fields : List (String × GqlValue))

/-- The GraphQL-shaped response `{ data?, errors? }` (errors are the
`message` strings of the error entries). -/
structure GraphQLResult where
  data : Option (List (String × GqlValue)) := none
  errors : Option (List String) := none

/-- Field lookup on an object literal (keys are unique). -/
def lookupG (fields : List (String × GqlValue)) (k : String) : Option GqlValue :=
  match fields with
  | [] => none
  | (k', v) :: rest => if k' = k then some v else lookupG rest k

/-- The operations `executeGraphQL` can recognize. -/
inductive Operation where
  | hello
  | apiInfo
  | getChatSession
  | createChatSession
  | clearChatSession
  | deleteChatSession
  | sendMessage
  | unknown
deriving DecidableEq

/-- The dispatch chain of `executeGraphQL`: test the trimmed query for
each operation name as a substring, in source order; first match wins. -/
def classifyOperation (query : String) : Operation :=
  let q := jsTrim query
  if containsSubstr q "hello" then .hello
  else if containsSubstr q "apiInfo" then .apiInfo
  else if containsSubstr q "getChatSession" then .getChatSession
  else if containsSubstr q "createChatSession" then .createChatSession
  else if containsSubstr q "clearChatSession" then .clearChatSession
  else if containsSubstr q "deleteChatSession" then .deleteChatSession
  else if containsSubstr q "sendMessage" then .sendMessage
  else .unknown

/-- Abbreviated rendering of the `apiInfo` JSON blob (schema metadata
plus live session count and uptime); no claim constrains its text. -/
def apiInfoString (sessionsCount uptime : Nat) : String :=
  "\x7b \"version\": \"1.0.0\", \"sessionsCount\": " ++ toString sessionsCount ++
    ", \"uptime\": " ++ toString uptime ++ ", \"status\": \"healthy\" \x7d"

/-- The session `handleSendMessage` resolves before appending: an
existing session if the resolved `sessionId` argument is truthy and
present in the store, otherwise none (a fresh one is then created). -/
def resolvedSession (vars : Vars) (query : String) (env : Env) : Option ChatSession :=
  match resolveArg vars query "sessionId" with
  | some (.str sid) => if sid = "" then none else mapGet env.store sid
  | some _ => none
  | none => none

/-- The validation predicate of `handleSendMessage`:
`!message || typeof message !== 'string' || message.trim().length === 0`. -/
def msgInvalid : Option JsVal → Bool
  | none => true
  | some (.str s) => (jsTrim s).isEmpty
  | some _ => true

/-- The failure `ChatResponse` (lines 526–535 of `schema.ts`). -/
def sendFailureResult (sess : ChatSession) (e : String) : GraphQLResult :=
  { data := some [("sendMessage", .obj
      [("success", .boolV false), ("message", .nullV),
       ("session", .sessionV sess), ("error", .strV e)])] }

/-- The success `ChatResponse` (lines 508–517 of `schema.ts`); note there
is no `message` field. -/
def sendSuccessResult (chunks : List String) (sess : ChatSession) : GraphQLResult :=
  { data := some [("sendMessage", .obj
      [("success", .boolV true), ("stream", .streamV chunks),
       ("session", .sessionV sess), ("error", .nullV)])] }

/-- Model of `handleSendMessage(query, variables)`: validate the message, resolve
or create the session, append the user message, call the completion
service, and either append the streamed assistant reply (modelled at
full consumption of the relay) or record the failure while keeping the
user message. -/
def handleSendMessage (query : String) (vars : Vars) (upstream : Upstream)
    (env : Env) : GraphQLResult × Env :=
  let messageArg := resolveArg vars query "message"
  -- `useStream` is computed in the source but never read afterwards.
  match messageArg with
  | some (.str s) =>
    if (jsTrim s).isEmpty then
      ({ errors := some ["Message content is required and cannot be empty"] }, env)
    else
      -- 获取或创建会话
      let (sess, env) :=
        match resolvedSession vars query env with
        | some s0 => (s0, env)
        | none =>
          let (nid, env) := genId env
          let (t1, env) := tick env
          let (t2, env) := tick env
          let s0 : ChatSession := ⟨nid, [], t1, t2⟩
          (s0, { env with store := mapSet env.store nid s0 })
      -- 创建用户消息并添加到会话（此处不会刷新 updatedAt）
      let (umid, env) := genId env
      let (tu, env) := tick env
      let u : ChatMessage := ⟨umid, "user", jsTrim s, tu⟩
      let sess := { sess with messages := sess.messages ++ [u] }
      let env := { env with store := mapSet env.store sess.id sess }
      match callDeepSeekAPI sess.messages upstream env.now with
      | .error e =>
        let (tf, env) := tick env
        let sess := { sess with updatedAt := tf }
        let env := { env with store := mapSet env.store sess.id sess }
        (sendFailureResult sess e, env)
      | .ok (evs, now') =>
        let env := { env with now := now' }
        let (amid, env) := genId env
        let (ta, env) := tick env
        let (tu2, env) := tick env
        let chunks := evs.map eventString
        let fullContent := chunks.foldl (· ++ ·) ""
        let a : ChatMessage := ⟨amid, "assistant", fullContent, ta⟩
        let sess := { sess with messages := sess.messages ++ [a], updatedAt := tu2 }
        let env := { env with store := mapSet env.store sess.id sess }
        (sendSuccessResult chunks sess, env)
  | _ => ({ errors := some ["Message content is required and cannot be empty"] }, env)

/-- Model of `executeGraphQL(query, variables)`: classify the trimmed query by
substring containment and run the matching branch over the session
store. -/
def executeGraphQL (query : String) (vars : Vars) (upstream : Upstream)
    (env : Env) : GraphQLResult × Env :=
  match classifyOperation query with
  | .hello =>
    ({ data := some [("hello", .strV "Hello from GraphQL AI Chat API! 🚀")] }, env)
  | .apiInfo =>
    let (t, env) := tick env
    ({ data := some [("apiInfo", .strV (apiInfoString env.store.length t))] }, env)
  | .getChatSession =>
    (match resolveArg vars query "id" with
     | some (.str sid) =>
       if sid = "" then
         ({ errors := some ["Session ID is required for getChatSession query"] }, env)
       else
         ({ data := some [("getChatSession",
             match mapGet env.store sid with
             | some s => .sessionV s
             | none => .nullV)] }, env)
     | some v =>
       if truthy v then
         -- a truthy non-string key misses the string-keyed map
         ({ data := some [("getChatSession", .nullV)] }, env)
       else
         ({ errors := some ["Session ID is required for getChatSession query"] }, env)
     | none =>
       ({ errors := some ["Session ID is required for getChatSession query"] }, env))
  | .createChatSession =>
    let (nid, env) := genId env
    let (t1, env) := tick env
    let (t2, env) := tick env
    let s : ChatSession := ⟨nid, [], t1, t2⟩
    ({ data := some [("createChatSession", .sessionV s)] },
     { env with store := mapSet env.store nid s })
  | .clearChatSession =>
    (match resolveArg vars query "sessionId" with
     | some (.str sid) =>
       if sid = "" then
         ({ errors := some ["Session ID is required for clearChatSession mutation"] }, env)
       else
         (match mapGet env.store sid with
          | none => ({ errors := some ["Session " ++ sid ++ " not found"] }, env)
          | some s =>
            let (t, env) := tick env
            let s' := { s with messages := ([] : List ChatMessage), updatedAt := t }
            ({ data := some [("clearChatSession", .sessionV s')] },
             { env with store := mapSet env.store sid s' }))
     | some v =>
       if truthy v then
         ({ errors := some ["Session " ++ jsDisplay v ++ " not found"] }, env)
       else
         ({ errors := some ["Session ID is required for clearChatSession mutation"] }, env)
     | none =>
       ({ errors := some ["Session ID is required for clearChatSession mutation"] }, env))
  | .deleteChatSession =>
    (match resolveArg vars query "sessionId" with
     | some (.str sid) =>
       if sid = "" then
         ({ errors := some ["Session ID is required for deleteChatSession mutation"] }, env)
       else
         let (deleted, store') := mapDelete env.store sid
         ({ data := some [("deleteChatSession", .boolV deleted)] },
          { env with store := store' })
     | some v =>
       if truthy v then
         ({ data := some [("deleteChatSession", .boolV false)] }, env)
       else
         ({ errors := some ["Session ID is required for deleteChatSession mutation"] }, env)
     | none =>
       ({ errors := some ["Session ID is required for deleteChatSession mutation"] }, env))
  | .sendMessage => handleSendMessage query vars upstream env
  | .unknown =>
    ({ errors := some ["Unknown GraphQL operation. Please check your query syntax."] }, env)

/-! ## HTTP boundary (src/handlers/graphql.ts) -/

/-- The parsed JSON body of a POST /graphql request. -/
structure GReq where
  query : Option JsVal
  varsField : Option Vars

/-- The body of the HTTP response: either the relayed token stream or a
JSON rendering of the GraphQL result. -/
inductive RespBody where
  | stream (chunks : List String)
  | json (result : GraphQLResult)

/-- An HTTP response (status, headers in emission order, body). -/
structure HttpResponse where
  status : Nat
  headers : List (String × String)
  body : RespBody

/-- Header lookup. -/
def headerGet (hs : List (String × String)) (k : String) : Option String :=
  match hs with
  | [] => none
  | (k', v) :: rest => if k' = k then some v else headerGet rest k

def corsHeaders : List (String × String) :=
  [("Access-Control-Allow-Origin", "*"),
   ("Access-Control-Allow-Methods", "GET, POST, OPTIONS"),
   ("Access-Control-Allow-Headers", "Content-Type, Authorization")]

/-- Model of `createJsonResponse(data, status)` from `src/utils/index.ts`. -/
def createJsonResponse (r : GraphQLResult) (status : Nat) : HttpResponse :=
  { status := status
    headers := corsHeaders ++ [("Content-Type", "application/json")]
    body := .json r }

/-- Model of `handleGraphQLRequest(request)`: validate the request body, execute
the query, and either relay the token stream (with the session id
header) or return the JSON result. -/
def handleGraphQLRequest (req : GReq) (upstream : Upstream) (env : Env) :
    HttpResponse × Env :=
  match req.query with
  | some (.str q) =>
    if q.isEmpty then
      (createJsonResponse
        { errors := some ["GraphQL query is required and must be a string"] } 400, env)
    else if (jsTrim q).isEmpty then
      (createJsonResponse { errors := some ["GraphQL query cannot be empty"] } 400, env)
    else
      let (result, env') := executeGraphQL q (req.varsField.getD []) upstream env
      match result.data with
      | some fields =>
        (match lookupG fields "sendMessage" with
         | some (.obj o) =>
           (match lookupG o "stream" with
            | some (.streamV chunks) =>
              let sid :=
                match lookupG o "session" with
                | some (.sessionV s) => s.id
                | _ => ""
              ({ status := 200
                 headers := [("Content-Type", "text/event-stream"),
                             ("Cache-Control", "no-cache"),
                             ("Connection", "keep-alive"),
                             ("X-Session-Id", sid)]
                 body := .stream chunks }, env')
            | _ => (createJsonResponse result 200, env'))
         | _ => (createJsonResponse result 200, env'))
      | none => (createJsonResponse result 200, env')
  | some _ =>
    (createJsonResponse
      { errors := some ["GraphQL query is required and must be a string"] } 400, env)
  | none =>
    (createJsonResponse
      { errors := some ["GraphQL query is required and must be a string"] } 400, env)

/-! ## Spec-side characterizations -/

/-- The classifier's priority table, in the order required by §4.1 of the
spec. -/
def opNamePairs : List (String × Operation) :=
  [("hello", .hello), ("apiInfo", .apiInfo), ("getChatSession", .getChatSession),
   ("createChatSession", .createChatSession), ("clearChatSession", .clearChatSession),
   ("deleteChatSession", .deleteChatSession), ("sendMessage", .sendMessage)]

/-- Spec-side classifier: the first table entry whose name occurs in the
trimmed query wins; otherwise `unknown`. -/
def specClassify (query : String) : Operation :=
  match opNamePairs.find? (fun p => containsSubstr (jsTrim query) p.1) with
  | some p => p.2
  | none => .unknown

/-- Store well-formedness at clock value `n`: every stored session has
`createdAt ≤ updatedAt`, and all of its timestamps precede the clock.
This is the reachability invariant of the running service (the store
starts empty and every stored timestamp was observed from the clock). -/
def WFat (n : Nat) (store : List (String × ChatSession)) : Prop :=
  ∀ p ∈ store, p.2.createdAt ≤ p.2.updatedAt ∧ p.2.updatedAt < n

theorem sanity_extract :
    extractVariableFromQuery "mutation \x7b sendMessage(message: \"hi\") \x7d" "message"
      = some "hi" := by decide

theorem sanity_extract_ci :
    extractVariableFromQuery "sessionId: \"abc\"" "sessionid" = some "abc" := by decide

theorem sanity_extract_none :
    extractVariableFromQuery "query \x7b hello \x7d" "id" = none := by decide

/-! ## Claim C4 — operation classification -/

/-- C4: classification tests substring containment of the operation names
in the fixed priority order (hello, apiInfo, getChatSession,
createChatSession, clearChatSession, deleteChatSession, sendMessage),
first match wins; the query `mutation { createChatSession { id } }`
classifies as `createChatSession`; and a query containing none of the
names yields the operation-not-recognized error with the session store
(and the whole environment) left unchanged. -/
theorem classify_spec (query : String) (vars : Vars) (upstream : Upstream)
    (env : Env) :
    classifyOperation query = specClassify query ∧
    classifyOperation "mutation \x7b createChatSession \x7b id \x7d \x7d"
      = .createChatSession ∧
    ((∀ p ∈ opNamePairs, containsSubstr (jsTrim query) p.1 = false) →
      executeGraphQL query vars upstream env =
        ({ errors := some ["Unknown GraphQL operation. Please check your query syntax."] },
         env)) := by
  refine ⟨?_, by decide, ?_⟩
  · unfold classifyOperation specClassify opNamePairs
    cases h1 : containsSubstr (jsTrim query) "hello" <;>
      cases h2 : containsSubstr (jsTrim query) "apiInfo" <;>
      cases h3 : containsSubstr (jsTrim query) "getChatSession" <;>
      cases h4 : containsSubstr (jsTrim query) "createChatSession" <;>
      cases h5 : containsSubstr (jsTrim query) "clearChatSession" <;>
      cases h6 : containsSubstr (jsTrim query) "deleteChatSession" <;>
      cases h7 : containsSubstr (jsTrim query) "sendMessage" <;>
      simp [List.find?, h1, h2, h3, h4, h5, h6, h7]
  · intro hnone
    have h1 := hnone ("hello", .hello) (by simp [opNamePairs])
    have h2 := hnone ("apiInfo", .apiInfo) (by simp [opNamePairs])
    have h3 := hnone ("getChatSession", .getChatSession) (by simp [opNamePairs])
    have h4 := hnone ("createChatSession", .createChatSession) (by simp [opNamePairs])
    have h5 := hnone ("clearChatSession", .clearChatSession) (by simp [opNamePairs])
    have h6 := hnone ("deleteChatSession", .deleteChatSession) (by simp [opNamePairs])
    have h7 := hnone ("sendMessage", .sendMessage) (by simp [opNamePairs])
    simp only at h1 h2 h3 h4 h5 h6 h7
    have hcl : classifyOperation query = .unknown := by
      unfold classifyOperation
      simp [h1, h2, h3, h4, h5, h6, h7]
    unfold executeGraphQL
    rw [hcl]

/-- Witness for `classify_spec` at a concrete unknown query. -/
theorem classify_spec_witness :
    executeGraphQL "query \x7b nothing \x7d" [] ⟨true, 200, "", none⟩ ⟨[], 0, 0⟩ =
      ({ errors := some ["Unknown GraphQL operation. Please check your query syntax."] },
       ⟨[], 0, 0⟩) :=
  (classify_spec "query \x7b nothing \x7d" [] ⟨true, 200, "", none⟩ ⟨[], 0, 0⟩).2.2
    (by decide)

/-! ## Claim C2 — sendMessage validation -/

/-- C2: when the resolved message argument is absent, not a string, or
trims to the empty string (`msgInvalid`), sendMessage returns the
validation error and the environment — in particular the session store —
is completely untouched. -/
theorem sendMessage_validation (query : String) (vars : Vars)
    (upstream : Upstream) (env : Env)
    (hcl : classifyOperation query = .sendMessage)
    (hbad : msgInvalid (resolveArg vars query "message") = true) :
    executeGraphQL query vars upstream env =
      ({ errors := some ["Message content is required and cannot be empty"] }, env) := by
  unfold executeGraphQL
  rw [hcl]
  unfold handleSendMessage
  cases hm : resolveArg vars query "message" with
  | none => simp [hm]
  | some v =>
    cases v with
    | str s =>
      have hs : (jsTrim s).isEmpty = true := by simpa [msgInvalid, hm] using hbad
      simp [hm, hs]
    | num n => simp [hm]
    | boolean b => simp [hm]
    | null => simp [hm]

/-- Witness for `sendMessage_validation`: sending an empty message against
an empty store (Scenario B). -/
theorem sendMessage_validation_witness :
    executeGraphQL "mutation \x7b sendMessage(message: \"\") \x7b success \x7d \x7d"
        [] ⟨true, 200, "", none⟩ ⟨[], 0, 0⟩ =
      ({ errors := some ["Message content is required and cannot be empty"] },
       ⟨[], 0, 0⟩) :=
  sendMessage_validation _ [] ⟨true, 200, "", none⟩ ⟨[], 0, 0⟩
    (by decide) (by decide)

/-! ## Claim C5 — operations on an unknown session id -/

/-- Deleting a key that is not present reports `false` and leaves the map
unchanged. -/
theorem mapDelete_of_get_none (m : List (String × ChatSession)) (k : String)
    (h : mapGet m k = none) : mapDelete m k = (false, m) := by
  induction m with
  | nil => rfl
  | cons p rest ih =>
    obtain ⟨k', v'⟩ := p
    by_cases hk : k' = k
    · simp [mapGet, hk] at h
    · simp [mapGet, hk] at h
      simp [mapDelete, hk, ih h]

/-- C5: for a session id absent from the store, `clearChatSession` returns
an error entry naming the id, `deleteChatSession` returns `false` with no
error, `getChatSession` returns null with no error, and none of the three
changes the store (or any other part of the environment). -/
theorem absentSession_ops (query : String) (vars : Vars) (upstream : Upstream)
    (env : Env) (sid : String) (hsid : sid ≠ "")
    (hmiss : mapGet env.store sid = none) :
    (classifyOperation query = .clearChatSession →
      resolveArg vars query "sessionId" = some (.str sid) →
      executeGraphQL query vars upstream env =
        ({ errors := some ["Session " ++ sid ++ " not found"] }, env)) ∧
    (classifyOperation query = .deleteChatSession →
      resolveArg vars query "sessionId" = some (.str sid) →
      executeGraphQL query vars upstream env =
        ({ data := some [("deleteChatSession", .boolV false)] }, env)) ∧
    (classifyOperation query = .getChatSession →
      resolveArg vars query "id" = some (.str sid) →
      executeGraphQL query vars upstream env =
        ({ data := some [("getChatSession", .nullV)] }, env)) := by
  refine ⟨?_, ?_, ?_⟩
  · intro hcl hres
    unfold executeGraphQL
    rw [hcl]
    simp [hres, hsid, hmiss]
  · intro hcl hres
    unfold executeGraphQL
    rw [hcl]
    simp [hres, hsid, mapDelete_of_get_none env.store sid hmiss]
  · intro hcl hres
    unfold executeGraphQL
    rw [hcl]
    simp [hres, hsid, hmiss]

/-- Witness for `absentSession_ops`: all three operations against an
empty store with id `nope`. -/
theorem absentSession_ops_witness :
    (executeGraphQL "mutation \x7b clearChatSession(sessionId: \"nope\") \x7d"
        [] ⟨true, 200, "", none⟩ ⟨[], 0, 0⟩ =
      ({ errors := some ["Session nope not found"] }, ⟨[], 0, 0⟩)) ∧
    (executeGraphQL "mutation \x7b deleteChatSession(sessionId: \"nope\") \x7d"
        [] ⟨true, 200, "", none⟩ ⟨[], 0, 0⟩ =
      ({ data := some [("deleteChatSession", .boolV false)] }, ⟨[], 0, 0⟩)) ∧
    (executeGraphQL "query \x7b getChatSession(id: \"nope\") \x7d"
        [] ⟨true, 200, "", none⟩ ⟨[], 0, 0⟩ =
      ({ data := some [("getChatSession", .nullV)] }, ⟨[], 0, 0⟩)) := by
  refine ⟨?_, ?_, ?_⟩
  · exact (absentSession_ops _ [] ⟨true, 200, "", none⟩ ⟨[], 0, 0⟩ "nope"
      (by decide) (by decide)).1 (by decide) (by decide)
  · exact (absentSession_ops _ [] ⟨true, 200, "", none⟩ ⟨[], 0, 0⟩ "nope"
      (by decide) (by decide)).2.1 (by decide) (by decide)
  · exact (absentSession_ops _ [] ⟨true, 200, "", none⟩ ⟨[], 0, 0⟩ "nope"
      (by decide) (by decide)).2.2 (by decide) (by decide)

/-! ## Claim C6 — clearChatSession frame conditions -/

/-- A successful lookup comes from a stored entry. -/
theorem mapGet_mem (m : List (String × ChatSession)) (k : String)
    (v : ChatSession) (h : mapGet m k = some v) : (k, v) ∈ m := by
  induction m with
  | nil => simp [mapGet] at h
  | cons p rest ih =>
    obtain ⟨k', v'⟩ := p
    by_cases hk : k' = k
    · subst hk
      simp [mapGet] at h
      simp [h]
    · simp [mapGet, hk] at h
      exact List.mem_cons_of_mem _ (ih h)

/-- C6: clearing an existing session empties its `messages`, preserves its
`id` and `createdAt`, and strictly increases its `updatedAt`; the store
maps the id to the cleared session afterwards. -/
theorem clearSession_frame (query : String) (vars : Vars) (upstream : Upstream)
    (env : Env) (sid : String) (s : ChatSession)
    (hcl : classifyOperation query = .clearChatSession)
    (hres : resolveArg vars query "sessionId" = some (.str sid))
    (hsid : sid ≠ "")
    (hfound : mapGet env.store sid = some s)
    (hwf : WFat env.now env.store) :
    executeGraphQL query vars upstream env =
      ({ data := some [("clearChatSession",
          .sessionV { s with messages := [], updatedAt := env.now })] },
       { env with
          store := mapSet env.store sid { s with messages := [], updatedAt := env.now }
          now := env.now + 1 }) ∧
    ({ s with messages := ([] : List ChatMessage), updatedAt := env.now }).id = s.id ∧
    ({ s with messages := ([] : List ChatMessage), updatedAt := env.now }).createdAt
      = s.createdAt ∧
    ({ s with messages := ([] : List ChatMessage), updatedAt := env.now }).messages
      = [] ∧
    s.updatedAt <
      ({ s with messages := ([] : List ChatMessage), updatedAt := env.now }).updatedAt := by
  have hstrict : s.updatedAt < env.now := (hwf (sid, s) (mapGet_mem _ _ _ hfound)).2
  refine ⟨?_, rfl, rfl, rfl, hstrict⟩
  unfold executeGraphQL
  rw [hcl]
  simp [hres, hsid, hfound, tick]

/-- Witness for `clearSession_frame`: clearing a stored session holding
one message. -/
theorem clearSession_frame_witness :
    executeGraphQL "mutation \x7b clearChatSession(sessionId: \"sid1\") \x7d"
        [] ⟨true, 200, "", none⟩
        ⟨[("sid1", ⟨"sid1", [⟨"m1", "user", "hi", 1⟩], 0, 1⟩)], 2, 1⟩ =
      ({ data := some [("clearChatSession", .sessionV ⟨"sid1", [], 0, 2⟩)] },
       ⟨[("sid1", ⟨"sid1", [], 0, 2⟩)], 3, 1⟩) ∧
    ("sid1" : String) = "sid1" ∧ (0 : Nat) = 0 ∧
    ([] : List ChatMessage) = [] ∧ (1 : Nat) < 2 := by
  exact clearSession_frame _ [] ⟨true, 200, "", none⟩
    ⟨[("sid1", ⟨"sid1", [⟨"m1", "user", "hi", 1⟩], 0, 1⟩)], 2, 1⟩ "sid1"
    ⟨"sid1", [⟨"m1", "user", "hi", 1⟩], 0, 1⟩
    (by decide) (by decide) (by decide) (by decide) (by unfold WFat; decide)

/-! ## Claim C8 — variable resolution -/

/-- The scan finds exactly the leftmost pattern occurrence. -/
theorem scanExtract_eq_some_iff (name : List Char) (l : List Char) (c : List Char) :
    scanExtract name l = some c ↔
      ∃ i, matchPatAt name (l.drop i) = some c ∧
        ∀ j < i, matchPatAt name (l.drop j) = none := by
  induction l with
  | nil =>
    constructor
    · intro h
      exact ⟨0, h, by omega⟩
    · rintro ⟨i, hi, -⟩
      simpa [List.drop_nil] using hi
  | cons c0 cs ih =>
    cases h0 : matchPatAt name (c0 :: cs) with
    | some r =>
      constructor
      · intro h
        simp [scanExtract, h0] at h
        exact ⟨0, by simpa [h0] using congrArg some h, by omega⟩
      · rintro ⟨i, hi, hj⟩
        cases i with
        | zero =>
          simp [scanExtract, h0]
          simpa [h0] using hi
        | succ i' =>
          have := hj 0 (Nat.succ_pos _)
          simp [h0] at this
    | none =>
      constructor
      · intro h
        simp only [scanExtract, h0] at h
        obtain ⟨i, hi, hj⟩ := ih.mp h
        refine ⟨i + 1, by simpa using hi, ?_⟩
        intro j hji
        cases j with
        | zero => simpa using h0
        | succ j' => simpa using hj j' (by omega)
      · rintro ⟨i, hi, hj⟩
        cases i with
        | zero => simp [h0] at hi
        | succ i' =>
          simp only [scanExtract, h0]
          exact ih.mpr ⟨i', by simpa using hi,
            fun j hji => by simpa using hj (j + 1) (by omega)⟩

/-- The scan fails exactly when no position matches. -/
theorem scanExtract_eq_none_iff (name : List Char) (l : List Char) :
    scanExtract name l = none ↔
      ∀ i, matchPatAt name (l.drop i) = none := by
  induction l with
  | nil =>
    constructor
    · intro h i
      simpa [List.drop_nil] using h
    · intro h
      simpa using h 0
  | cons c0 cs ih =>
    cases h0 : matchPatAt name (c0 :: cs) with
    | some r =>
      constructor
      · intro h
        simp [scanExtract, h0] at h
      · intro h
        have := h 0
        simp [h0] at this
    | none =>
      constructor
      · intro h i
        simp only [scanExtract, h0] at h
        cases i with
        | zero => simpa using h0
        | succ i' => simpa using ih.mp h i'
      · intro h
        simp only [scanExtract, h0]
        exact ih.mpr fun i => by simpa using h (i + 1)

/-- C8: argument resolution prefers a present, non-empty entry of the
variables map; otherwise it falls back to the raw-query extraction, which
returns the quoted content of the leftmost case-insensitive occurrence of
`name: "…"` or signals absence with `none` (distinct from an empty
string); the resolver is a total function, so it never throws. -/
theorem resolveArg_spec (vars : Vars) (query name : String) :
    (∀ v : String, varsGet vars name = some (.str v) → v ≠ "" →
      resolveArg vars query name = some (.str v)) ∧
    ((varsGet vars name = none ∨ varsGet vars name = some (.str "")) →
      resolveArg vars query name = (extractVariableFromQuery query name).map .str) ∧
    (∀ c : String, extractVariableFromQuery query name = some c ↔
      ∃ i, matchPatAt name.data (query.data.drop i) = some c.data ∧
        ∀ j < i, matchPatAt name.data (query.data.drop j) = none) ∧
    (extractVariableFromQuery query name = none ↔
      ∀ i, matchPatAt name.data (query.data.drop i) = none) := by
  refine ⟨?_, ?_, ?_, ?_⟩
  · intro v hv hne
    have hemp : v.isEmpty = false := by
      rcases hemp : v.isEmpty with _ | _
      · rfl
      · exact absurd ((String.isEmpty_iff v).mp hemp) hne
    simp [resolveArg, hv, truthy, hemp]
  · rintro (hv | hv)
    · simp [resolveArg, hv]
    · have hemp : ("" : String).isEmpty = true := rfl
      simp [resolveArg, hv, truthy, hemp]
  · intro c
    unfold extractVariableFromQuery
    rw [Option.map_eq_some']
    constructor
    · rintro ⟨r, hr, rfl⟩
      exact (scanExtract_eq_some_iff _ _ _).mp hr
    · intro h
      exact ⟨c.data, (scanExtract_eq_some_iff _ _ _).mpr h, rfl⟩
  · unfold extractVariableFromQuery
    rw [Option.map_eq_none']
    exact scanExtract_eq_none_iff _ _

/-- Witness for `resolveArg_spec`: each clause at concrete inputs. -/
theorem resolveArg_spec_witness :
    (resolveArg [("message", JsVal.str "yo")] "q" "message" = some (.str "yo")) ∧
    (resolveArg [] "sendMessage(message: \"hi\")" "message" =
      (extractVariableFromQuery "sendMessage(message: \"hi\")" "message").map .str) ∧
    (extractVariableFromQuery "message: \"hi\"" "message" = some "hi") ∧
    (matchPatAt "id".data ("query".data.drop 2) = none) := by
  refine ⟨?_, ?_, ?_, ?_⟩
  · exact (resolveArg_spec [("message", JsVal.str "yo")] "q" "message").1 "yo"
      (by decide) (by decide)
  · exact (resolveArg_spec [] "sendMessage(message: \"hi\")" "message").2.1
      (Or.inl (by decide))
  · exact ((resolveArg_spec [] "message: \"hi\"" "message").2.2.1 "hi").mpr
      ⟨0, by decide, by omega⟩
  · exact ((resolveArg_spec [] "query" "id").2.2.2.mp (by decide)) 2

/-! ## Claim C3 — sendMessage with a failing completion call -/

/-- The error message `callDeepSeekAPI` fails with: the thrown
`DeepSeek API 错误: status text` for a non-ok status, else the
missing-body message. -/
def failMsg (upstream : Upstream) : String :=
  if !upstream.ok then
    "DeepSeek API 错误: " ++ toString upstream.status ++ " " ++ upstream.errorText
  else "DeepSeek API 没有返回流式响应"

theorem append_ne_empty_left (a b : String) (ha : a ≠ "") : a ++ b ≠ "" := by
  intro h
  apply ha
  have : (a ++ b).data = a.data ++ b.data := String.data_append a b
  have hnil : a.data ++ b.data = [] := by
    rw [← this, h]
  rcases List.append_eq_nil.mp hnil with ⟨h1, -⟩
  exact congrArg String.mk h1

theorem failMsg_ne_empty (upstream : Upstream) : failMsg upstream ≠ "" := by
  unfold failMsg
  cases hok : upstream.ok with
  | false =>
    have h0 : ("DeepSeek API 错误: " : String) ≠ "" := by decide
    have h1 := append_ne_empty_left "DeepSeek API 错误: " (toString upstream.status) h0
    have h2 := append_ne_empty_left _ " " h1
    have h3 := append_ne_empty_left _ upstream.errorText h2
    simpa using h3
  | true => simp

/-- On a non-ok status or a missing body, the adapter call fails with
`failMsg`. -/
theorem callDeepSeekAPI_fails (messages : List ChatMessage) (upstream : Upstream)
    (now : Nat) (hfail : upstream.ok = false ∨ upstream.body = none) :
    callDeepSeekAPI messages upstream now = .error (failMsg upstream) := by
  rcases hfail with hok | hbody
  · unfold callDeepSeekAPI getChatCompletion failMsg
    simp [hok]
  · cases hok : upstream.ok with
    | false =>
      unfold callDeepSeekAPI getChatCompletion failMsg
      simp [hok]
    | true =>
      unfold callDeepSeekAPI getChatCompletion failMsg
      simp [hok, hbody]

/-- A resolved existing session is a lookup result in the store. -/
theorem resolvedSession_get (vars : Vars) (query : String) (env : Env)
    (s0 : ChatSession) (h : resolvedSession vars query env = some s0) :
    ∃ sid, mapGet env.store sid = some s0 := by
  unfold resolvedSession at h
  cases hres : resolveArg vars query "sessionId" with
  | none => rw [hres] at h; cases h
  | some v =>
    rw [hres] at h
    cases v with
    | str sid =>
      by_cases hsid : sid = ""
      · simp [hsid] at h
      · simp [hsid] at h
        exact ⟨sid, h⟩
    | num n => cases h
    | boolean b => cases h
    | null => cases h

/-- Setting a key makes it retrievable. -/
theorem mapGet_set_self (m : List (String × ChatSession)) (k : String)
    (v : ChatSession) : mapGet (mapSet m k v) k = some v := by
  induction m with
  | nil => simp [mapSet, mapGet]
  | cons p rest ih =>
    obtain ⟨k', v'⟩ := p
    by_cases hk : k' = k
    · simp [mapSet, hk, mapGet]
    · simp [mapSet, hk, mapGet, ih]

/-- C3: when the message validates but the completion call fails (non-ok
status or missing body), the result is the failure `ChatResponse` with
the non-empty thrown error message; the resolved session keeps the
appended user message (and gains no assistant message), is still stored,
and its `updatedAt` is refreshed to a fresh time point (strictly above
the previous `updatedAt` when the session already existed). -/
theorem sendMessage_failure (query : String) (vars : Vars) (upstream : Upstream)
    (env : Env) (s : String)
    (hcl : classifyOperation query = .sendMessage)
    (hmsg : resolveArg vars query "message" = some (.str s))
    (hne : (jsTrim s).isEmpty = false)
    (hfail : upstream.ok = false ∨ upstream.body = none)
    (hwf : WFat env.now env.store) :
    ∃ sess u,
      (executeGraphQL query vars upstream env).1 =
        sendFailureResult sess (failMsg upstream) ∧
      failMsg upstream ≠ "" ∧
      sess.messages =
        (match resolvedSession vars query env with
         | some s0 => s0.messages
         | none => []) ++ [u] ∧
      u.role = "user" ∧ u.content = jsTrim s ∧
      mapGet (executeGraphQL query vars upstream env).2.store sess.id = some sess ∧
      env.now ≤ sess.updatedAt ∧
      (∀ s0, resolvedSession vars query env = some s0 →
        s0.updatedAt < sess.updatedAt) := by
  have hexec : executeGraphQL query vars upstream env =
      handleSendMessage query vars upstream env := by
    unfold executeGraphQL
    rw [hcl]
  rw [hexec]
  unfold handleSendMessage
  rw [hmsg]
  simp only [hne, Bool.false_eq_true, if_false]
  cases hbase : resolvedSession vars query env with
  | some s0 =>
    simp only [genId, tick]
    rw [callDeepSeekAPI_fails _ _ _ hfail]
    refine ⟨{ s0 with
        messages := s0.messages ++
          [⟨"id_" ++ toString env.nextId, "user", jsTrim s, env.now⟩]
        updatedAt := env.now + 1 },
      ⟨"id_" ++ toString env.nextId, "user", jsTrim s, env.now⟩,
      rfl, failMsg_ne_empty upstream, by simp, rfl, rfl, ?_,
      by show env.now ≤ env.now + 1; omega, ?_⟩
    · exact mapGet_set_self _ _ _
    · intro s1 hs1
      cases hs1
      obtain ⟨sid, hget⟩ := resolvedSession_get vars query env s0 hbase
      have hlt : s0.updatedAt < env.now := (hwf (sid, s0) (mapGet_mem _ _ _ hget)).2
      show s0.updatedAt < env.now + 1
      omega
  | none =>
    simp only [genId, tick]
    rw [callDeepSeekAPI_fails _ _ _ hfail]
    refine ⟨⟨"id_" ++ toString env.nextId,
        [⟨"id_" ++ toString (env.nextId + 1), "user", jsTrim s, env.now + 2⟩],
        env.now, env.now + 3⟩,
      ⟨"id_" ++ toString (env.nextId + 1), "user", jsTrim s, env.now + 2⟩,
      rfl, failMsg_ne_empty upstream, by simp, rfl, rfl, ?_,
      by show env.now ≤ env.now + 3; omega, ?_⟩
    · exact mapGet_set_self _ _ _
    · intro s1 hs1
      cases hs1

/-- Witness for `sendMessage_failure`: upstream answers 500 (Scenario D);
the store ends with a fresh session holding exactly the user message. -/
theorem sendMessage_failure_witness :
    executeGraphQL "mutation \x7b sendMessage(message: \"hi\") \x7d"
        [] ⟨false, 500, "boom", none⟩ ⟨[], 0, 0⟩ =
      (sendFailureResult ⟨"id_0", [⟨"id_1", "user", "hi", 2⟩], 0, 3⟩
        "DeepSeek API 错误: 500 boom",
       ⟨[("id_0", ⟨"id_0", [⟨"id_1", "user", "hi", 2⟩], 0, 3⟩)], 4, 2⟩) := by
  have h := sendMessage_failure "mutation \x7b sendMessage(message: \"hi\") \x7d"
    [] ⟨false, 500, "boom", none⟩ ⟨[], 0, 0⟩ "hi"
    (by decide) (by decide) (by decide) (Or.inl rfl) (by unfold WFat; decide)
  exact rfl

/-! ## Success path of sendMessage (shared by C10 and C1) -/

/-- With an ok status and a present body, the adapter call decodes the
body. -/
theorem getChatCompletion_ok (messages : List ChatMessage) (upstream : Upstream)
    (now : Nat) (bs : List String)
    (hok : upstream.ok = true) (hbody : upstream.body = some bs) :
    getChatCompletion messages upstream now =
      .ok (sseLoop ⟨true, false, [], now⟩ [] (bs.map String.data)) := by
  unfold getChatCompletion
  simp [hok, hbody]

/-- On the success path, the sendMessage result is the success
`ChatResponse` and the returned session is stored. -/
theorem sendMessage_success_general (query : String) (vars : Vars)
    (upstream : Upstream) (env : Env) (s : String) (bs : List String)
    (hcl : classifyOperation query = .sendMessage)
    (hmsg : resolveArg vars query "message" = some (.str s))
    (hne : (jsTrim s).isEmpty = false)
    (hok : upstream.ok = true) (hbody : upstream.body = some bs) :
    ∃ chunks sess env',
      executeGraphQL query vars upstream env = (sendSuccessResult chunks sess, env') ∧
      mapGet env'.store sess.id = some sess := by
  have hexec : executeGraphQL query vars upstream env =
      handleSendMessage query vars upstream env := by
    unfold executeGraphQL
    rw [hcl]
  rw [hexec]
  unfold handleSendMessage
  rw [hmsg]
  simp only [hne, Bool.false_eq_true, if_false]
  cases hbase : resolvedSession vars query env with
  | some s0 =>
    simp only [genId, tick]
    unfold callDeepSeekAPI
    rw [getChatCompletion_ok _ _ _ _ hok hbody]
    cases hsse : sseLoop ⟨true, false, [], env.now + 1⟩ []
        (bs.map String.data) with
    | mk evs n' =>
      exact ⟨_, _, _, rfl, mapGet_set_self _ _ _⟩
  | none =>
    simp only [genId, tick]
    unfold callDeepSeekAPI
    rw [getChatCompletion_ok _ _ _ _ hok hbody]
    cases hsse : sseLoop ⟨true, false, [], env.now + 3⟩ []
        (bs.map String.data) with
    | mk evs n' =>
      exact ⟨_, _, _, rfl, mapGet_set_self _ _ _⟩

/-! ## Claim C10 — shape of the success result and the streamed response -/

/-- A sendMessage classification forces a non-empty query. -/
theorem classify_sendMessage_nonempty (q : String)
    (h : classifyOperation q = .sendMessage) :
    q.isEmpty = false ∧ (jsTrim q).isEmpty = false := by
  have h7 : containsSubstr (jsTrim q) "sendMessage" = true := by
    simp only [classifyOperation] at h
    cases h1 : containsSubstr (jsTrim q) "hello" <;> rw [h1] at h <;>
      cases h2 : containsSubstr (jsTrim q) "apiInfo" <;> rw [h2] at h <;>
      cases h3 : containsSubstr (jsTrim q) "getChatSession" <;> rw [h3] at h <;>
      cases h4 : containsSubstr (jsTrim q) "createChatSession" <;> rw [h4] at h <;>
      cases h5 : containsSubstr (jsTrim q) "clearChatSession" <;> rw [h5] at h <;>
      cases h6 : containsSubstr (jsTrim q) "deleteChatSession" <;> rw [h6] at h <;>
      cases h7 : containsSubstr (jsTrim q) "sendMessage" <;> rw [h7] at h <;>
      simp_all
  have htrim : (jsTrim q).isEmpty = false := by
    cases htr : (jsTrim q).isEmpty with
    | false => rfl
    | true =>
      rw [(String.isEmpty_iff _).mp htr] at h7
      exact absurd h7 (by decide)
  refine ⟨?_, htrim⟩
  cases hq : q.isEmpty with
  | false => rfl
  | true =>
    rw [(String.isEmpty_iff _).mp hq] at htrim
    exact absurd htrim (by decide)

/-- C10: on the success path the sendMessage result object carries
`success=true`, the stream, the session, and `error=null`, but has no
top-level `message` field; the HTTP handler turns it into a streamed
response whose body is the token stream and whose `X-Session-Id` header
is the resolved session's id. -/
theorem sendMessage_success_shape (query : String) (vars : Vars)
    (upstream : Upstream) (env : Env) (s : String) (bs : List String)
    (hcl : classifyOperation query = .sendMessage)
    (hmsg : resolveArg vars query "message" = some (.str s))
    (hne : (jsTrim s).isEmpty = false)
    (hok : upstream.ok = true) (hbody : upstream.body = some bs) :
    ∃ o chunks sess,
      (executeGraphQL query vars upstream env).1.data =
        some [("sendMessage", .obj o)] ∧
      lookupG o "message" = none ∧
      lookupG o "success" = some (.boolV true) ∧
      lookupG o "error" = some .nullV ∧
      lookupG o "stream" = some (.streamV chunks) ∧
      lookupG o "session" = some (.sessionV sess) ∧
      (handleGraphQLRequest ⟨some (.str query), some vars⟩ upstream env).1.body
        = .stream chunks ∧
      headerGet
        (handleGraphQLRequest ⟨some (.str query), some vars⟩ upstream env).1.headers
        "X-Session-Id" = some sess.id := by
  obtain ⟨chunks, sess, env', hrun, -⟩ :=
    sendMessage_success_general query vars upstream env s bs hcl hmsg hne hok hbody
  obtain ⟨hq, htrim⟩ := classify_sendMessage_nonempty query hcl
  refine ⟨[("success", .boolV true), ("stream", .streamV chunks),
    ("session", .sessionV sess), ("error", .nullV)], chunks, sess, ?_, ?_, ?_, ?_, ?_, ?_, ?_, ?_⟩
  · rw [hrun]; rfl
  · rfl
  · rfl
  · simp [lookupG]
  · simp [lookupG]
  · simp [lookupG]
  · unfold handleGraphQLRequest
    simp only [hq, htrim, Bool.false_eq_true, if_false, Option.getD_some, hrun]
    rfl
  · unfold handleGraphQLRequest
    simp only [hq, htrim, Bool.false_eq_true, if_false, Option.getD_some, hrun]
    rfl

/-- Example inputs: a sendMessage mutation with inline message `hi`. -/
def exQuery : String := "mutation \x7b sendMessage(message: \"hi\") \x7d"

/-- Example upstream answer: one content delta `Hello`, then the
`[DONE]` sentinel. -/
def exUpstream : Upstream :=
  ⟨true, 200, "",
   some ["data: \x7b\"choices\":[\x7b\"delta\":\x7b\"content\":\"Hello\"\x7d\x7d]\x7d\n",
         "data: [DONE]\n"]⟩

/-- The empty starting environment. -/
def env0 : Env := ⟨[], 0, 0⟩

/-- Witness for `sendMessage_success_shape`: the concrete success run is
returned as a streamed HTTP response with the fresh session's id header. -/
theorem sendMessage_success_shape_witness :
    (handleGraphQLRequest ⟨some (.str exQuery), some []⟩ exUpstream env0).1.body =
      .stream ["\x7b\"type\":\"start\",\"timestamp\":\"3\"\x7d",
               "\x7b\"type\":\"content\",\"content\":\"Hello\"\x7d"] ∧
    headerGet (handleGraphQLRequest ⟨some (.str exQuery), some []⟩ exUpstream env0).1.headers
      "X-Session-Id" = some "id_0" := by
  have h := sendMessage_success_shape exQuery [] exUpstream env0 "hi" _
    (by decide) (by decide) (by decide) (by decide) rfl
  exact ⟨rfl, rfl⟩

/-! ## Claim C1 — assistant content after full stream consumption -/

/-- The `sendMessage` object of a result, if present. -/
def sendObjOf (r : GraphQLResult) : List (String × GqlValue) :=
  match r.data with
  | some fields =>
    (match lookupG fields "sendMessage" with
     | some (.obj o) => o
     | _ => [])
  | none => []

/-- The session carried by a `sendMessage` result. -/
def sessionOf (r : GraphQLResult) : Option ChatSession :=
  match lookupG (sendObjOf r) "session" with
  | some (.sessionV s) => some s
  | _ => none

/-- The content of the last message of the result's session (the
assistant message on the success path). -/
def assistantContentOf (r : GraphQLResult) : String :=
  match sessionOf r with
  | some s => (s.messages.getLastD ⟨"", "", "", 0⟩).content
  | none => ""

/-- The text carried by a Content event (string payloads). -/
def contentTextOf : SseEvent → Option String
  | .contentEv (.jstr s) => some s
  | _ => none

/-- The concatenation of exactly the text carried by the adapter's
Content events. -/
def contentConcat (evs : List SseEvent) : String :=
  String.join (evs.filterMap contentTextOf)

/-- The adapter events of the example run (the history passed is the
fresh session's single user message; the decoding does not depend on
it). -/
def exAdapterEvents : List SseEvent :=
  match getChatCompletion [⟨"id_1", "user", "hi", 2⟩] exUpstream 3 with
  | .ok (evs, _) => evs
  | .error _ => []

/-- C1 counterexample: in the concrete success run the adapter's Content
events carry exactly `Hello`, but the assistant message's content is the
concatenation of every relayed chunk — the JSON-serialized start marker
followed by the JSON-serialized content event — so it differs from the
concatenation of the Content events' text. -/
theorem sendMessage_content_counterexample :
    assistantContentOf (executeGraphQL exQuery [] exUpstream env0).1 =
      "\x7b\"type\":\"start\",\"timestamp\":\"3\"\x7d\x7b\"type\":\"content\",\"content\":\"Hello\"\x7d" ∧
    contentConcat exAdapterEvents = "Hello" ∧
    assistantContentOf (executeGraphQL exQuery [] exUpstream env0).1 ≠
      contentConcat exAdapterEvents := by
  refine ⟨rfl, rfl, ?_⟩
  intro h
  have : ("\x7b\"type\":\"start\",\"timestamp\":\"3\"\x7d\x7b\"type\":\"content\",\"content\":\"Hello\"\x7d" : String)
      = "Hello" := h
  exact absurd this (by decide)

/-- C1 (amended): on a fresh-session success run, the result is the
success `ChatResponse` (`success=true`), the session holds exactly two
messages (user then assistant), and after the stream is fully consumed
the assistant message's content equals the concatenation of all of the
adapter's emitted event strings — the JSON-serialized Start/Content/End/
Error markers — not just the text of the Content events. -/
theorem sendMessage_success_content (query : String) (vars : Vars)
    (upstream : Upstream) (env : Env) (s : String) (bs : List String)
    (hcl : classifyOperation query = .sendMessage)
    (hmsg : resolveArg vars query "message" = some (.str s))
    (hne : (jsTrim s).isEmpty = false)
    (hfresh : resolvedSession vars query env = none)
    (hok : upstream.ok = true) (hbody : upstream.body = some bs) :
    (executeGraphQL query vars upstream env).1 =
      sendSuccessResult
        (((sseLoop ⟨true, false, [], env.now + 3⟩ [] (bs.map String.data)).1).map eventString)
        ⟨"id_" ++ toString env.nextId,
         [⟨"id_" ++ toString (env.nextId + 1), "user", jsTrim s, env.now + 2⟩,
          ⟨"id_" ++ toString (env.nextId + 2), "assistant",
           ((((sseLoop ⟨true, false, [], env.now + 3⟩ [] (bs.map String.data)).1).map eventString).foldl (· ++ ·) ""),
           (sseLoop ⟨true, false, [], env.now + 3⟩ [] (bs.map String.data)).2⟩],
         env.now,
         (sseLoop ⟨true, false, [], env.now + 3⟩ [] (bs.map String.data)).2 + 1⟩ ∧
    callDeepSeekAPI [⟨"id_" ++ toString (env.nextId + 1), "user", jsTrim s, env.now + 2⟩]
        upstream (env.now + 3) =
      .ok (sseLoop ⟨true, false, [], env.now + 3⟩ [] (bs.map String.data)) ∧
    mapGet (executeGraphQL query vars upstream env).2.store
        ("id_" ++ toString env.nextId) =
      some ⟨"id_" ++ toString env.nextId,
        [⟨"id_" ++ toString (env.nextId + 1), "user", jsTrim s, env.now + 2⟩,
         ⟨"id_" ++ toString (env.nextId + 2), "assistant",
          ((((sseLoop ⟨true, false, [], env.now + 3⟩ [] (bs.map String.data)).1).map eventString).foldl (· ++ ·) ""),
          (sseLoop ⟨true, false, [], env.now + 3⟩ [] (bs.map String.data)).2⟩],
        env.now,
        (sseLoop ⟨true, false, [], env.now + 3⟩ [] (bs.map String.data)).2 + 1⟩ := by
  have hexec : executeGraphQL query vars upstream env =
      handleSendMessage query vars upstream env := by
    unfold executeGraphQL
    rw [hcl]
  rw [hexec]
  unfold handleSendMessage
  rw [hmsg]
  simp only [hne, Bool.false_eq_true, if_false]
  rw [hfresh]
  simp only [genId, tick]
  unfold callDeepSeekAPI
  rw [getChatCompletion_ok _ _ _ _ hok hbody]
  cases hsse : sseLoop ⟨true, false, [], env.now + 3⟩ [] (bs.map String.data) with
  | mk evs n' =>
    refine ⟨rfl, ?_, ?_⟩
    · rw [getChatCompletion_ok _ _ _ _ hok hbody, hsse]
    · exact mapGet_set_self _ _ _

/-- Witness for `sendMessage_success_content`: the concrete example run;
the assistant content is the concatenation of both relayed event
strings. -/
theorem sendMessage_success_content_witness :
    (executeGraphQL exQuery [] exUpstream env0).1 =
      sendSuccessResult
        ["\x7b\"type\":\"start\",\"timestamp\":\"3\"\x7d",
         "\x7b\"type\":\"content\",\"content\":\"Hello\"\x7d"]
        ⟨"id_0",
         [⟨"id_1", "user", "hi", 2⟩,
          ⟨"id_2", "assistant",
           "\x7b\"type\":\"start\",\"timestamp\":\"3\"\x7d\x7b\"type\":\"content\",\"content\":\"Hello\"\x7d",
           4⟩],
         0, 5⟩ := by
  have h := sendMessage_success_content exQuery [] exUpstream env0 "hi" _
    (by decide) (by decide) (by decide) (by decide) (by decide) rfl
  exact rfl

/-! ## Claim C9 — `updatedAt >= createdAt` invariant -/

theorem WFat_mono (n m : Nat) (store : List (String × ChatSession))
    (hnm : n ≤ m) (h : WFat n store) : WFat m store := by
  intro p hp
  obtain ⟨h1, h2⟩ := h p hp
  exact ⟨h1, lt_of_lt_of_le h2 hnm⟩

theorem WFat_set (n : Nat) (store : List (String × ChatSession)) (k : String)
    (v : ChatSession) (h : WFat n store)
    (hc : v.createdAt ≤ v.updatedAt) (hu : v.updatedAt < n) :
    WFat n (mapSet store k v) := by
  induction store with
  | nil =>
    intro p hp
    simp [mapSet] at hp
    subst hp
    exact ⟨hc, hu⟩
  | cons q rest ih =>
    obtain ⟨k', v'⟩ := q
    intro p hp
    by_cases hk : k' = k
    · simp [mapSet, hk] at hp
      rcases hp with hp | hp
      · subst hp
        exact ⟨hc, hu⟩
      · exact h p (List.mem_cons_of_mem _ hp)
    · simp only [mapSet, hk, if_false] at hp
      rcases List.mem_cons.mp hp with hp | hp
      · subst hp
        exact h (k', v') (List.mem_cons_self _ _)
      · exact ih (fun q hq => h q (List.mem_cons_of_mem _ hq)) p hp

theorem WFat_delete (n : Nat) (store : List (String × ChatSession)) (k : String)
    (h : WFat n store) : WFat n (mapDelete store k).2 := by
  induction store with
  | nil =>
    intro p hp
    simp [mapDelete] at hp
  | cons q rest ih =>
    obtain ⟨k', v'⟩ := q
    intro p hp
    by_cases hk : k' = k
    · simp [mapDelete, hk] at hp
      exact h p (List.mem_cons_of_mem _ hp)
    · simp only [mapDelete, hk, if_false] at hp
      rcases List.mem_cons.mp hp with hp | hp
      · subst hp
        exact h (k', v') (List.mem_cons_self _ _)
      · exact ih (fun q hq => h q (List.mem_cons_of_mem _ hq)) p hp

/-- The clock value a `LineStep` carries. -/
def stepNow : LineStep → Nat
  | .cont st => st.now
  | .halt _ n => n

theorem contentStep_now_mono (st : SseSt) (parsed : Json) :
    st.now ≤ stepNow (contentStep st parsed) := by
  unfold contentStep
  cases hd : deltaContent parsed with
  | none => simp [stepNow]
  | some c =>
    by_cases hc : jsTruthy c = true
    · simp only [hc, if_true]
      by_cases hf : st.isFirst = true
      · simp [hf, stepNow]
      · simp [hf, stepNow]
    · simp [hc, stepNow]

theorem handleLine_now_mono (st : SseSt) (l : List Char) :
    st.now ≤ stepNow (handleLine st l) := by
  unfold handleLine
  by_cases h1 : l.take 6 = "data: ".data
  · rw [if_pos h1]
    by_cases h2 : l.drop 6 = "[DONE]".data
    · simp [h2, stepNow]
    · rw [if_neg h2]
      cases hp : parseJson (l.drop 6) with
      | none => simp [stepNow]
      | some parsed =>
        cases parsed with
        | null => simp [stepNow]
        | jbool b =>
          cases he : jget (Json.jbool b) "error" with
          | none =>
            simp only [he]
            exact contentStep_now_mono st _
          | some errVal =>
            simp only [he]
            by_cases hv : jsTruthy errVal = true
            · simp [hv, stepNow]
            · simp only [hv, Bool.false_eq_true, if_false]
              exact contentStep_now_mono st _
        | jnum x =>
          cases he : jget (Json.jnum x) "error" with
          | none =>
            simp only [he]
            exact contentStep_now_mono st _
          | some errVal =>
            simp only [he]
            by_cases hv : jsTruthy errVal = true
            · simp [hv, stepNow]
            · simp only [hv, Bool.false_eq_true, if_false]
              exact contentStep_now_mono st _
        | jstr x =>
          cases he : jget (Json.jstr x) "error" with
          | none =>
            simp only [he]
            exact contentStep_now_mono st _
          | some errVal =>
            simp only [he]
            by_cases hv : jsTruthy errVal = true
            · simp [hv, stepNow]
            · simp only [hv, Bool.false_eq_true, if_false]
              exact contentStep_now_mono st _
        | jarr xs =>
          cases he : jget (Json.jarr xs) "error" with
          | none =>
            simp only [he]
            exact contentStep_now_mono st _
          | some errVal =>
            simp only [he]
            by_cases hv : jsTruthy errVal = true
            · simp [hv, stepNow]
            · simp only [hv, Bool.false_eq_true, if_false]
              exact contentStep_now_mono st _
        | jobj fs =>
          cases he : jget (Json.jobj fs) "error" with
          | none =>
            simp only [he]
            exact contentStep_now_mono st _
          | some errVal =>
            simp only [he]
            by_cases hv : jsTruthy errVal = true
            · simp [hv, stepNow]
            · simp only [hv, Bool.false_eq_true, if_false]
              exact contentStep_now_mono st _
  · rw [if_neg h1]
    simp [stepNow]

theorem processLineList_now_mono (lines : List (List Char)) (st : SseSt) :
    st.now ≤ stepNow (processLineList st lines) := by
  induction lines generalizing st with
  | nil => simp [processLineList, stepNow]
  | cons l ls ih =>
    have h := handleLine_now_mono st l
    unfold processLineList
    cases hl : handleLine st l with
    | cont st' =>
      rw [hl] at h
      simp only [stepNow] at h
      exact le_trans h (ih st')
    | halt evs n =>
      rw [hl] at h
      simpa [stepNow] using h

theorem sseLoop_now_mono (chunks : List (List Char)) (st : SseSt)
    (buffer : List Char) :
    st.now ≤ (sseLoop st buffer chunks).2 := by
  induction chunks generalizing st buffer with
  | nil =>
    unfold sseLoop
    split <;> simp
  | cons c cs ih =>
    unfold sseLoop
    have h := processLineList_now_mono (splitNl (buffer ++ c)).dropLast st
    cases hl : processLineList st (splitNl (buffer ++ c)).dropLast with
    | cont st' =>
      rw [hl] at h
      simp only [stepNow] at h
      simp only [hl]
      exact le_trans h (ih st' _)
    | halt evs n =>
      rw [hl] at h
      simp only [stepNow] at h
      simp only [hl]
      exact h

theorem callDeepSeekAPI_ok_now (msgs : List ChatMessage) (upstream : Upstream)
    (now : Nat) (evs : List SseEvent) (n' : Nat)
    (h : callDeepSeekAPI msgs upstream now = .ok (evs, n')) : now ≤ n' := by
  unfold callDeepSeekAPI getChatCompletion at h
  cases hok : upstream.ok with
  | false => simp [hok] at h
  | true =>
    rw [hok] at h
    cases hbody : upstream.body with
    | none => simp [hbody] at h
    | some bs =>
      rw [hbody] at h
      simp only [Bool.not_true, Bool.false_eq_true, if_false] at h
      have hpair : sseLoop ⟨true, false, [], now⟩ [] (bs.map String.data) = (evs, n') := by
        cases h' : sseLoop ⟨true, false, [], now⟩ [] (bs.map String.data) with
        | mk a b =>
          rw [h'] at h
          cases h
          rfl
      have := sseLoop_now_mono (bs.map String.data) ⟨true, false, [], now⟩ []
      rw [hpair] at this
      exact this

/-- C9: every operation preserves store well-formedness; in particular,
after any `executeGraphQL` run starting from a well-formed environment,
every stored session satisfies `updatedAt ≥ createdAt`. -/
theorem store_invariant (query : String) (vars : Vars) (upstream : Upstream)
    (env : Env) (hwf : WFat env.now env.store) :
    WFat (executeGraphQL query vars upstream env).2.now
      (executeGraphQL query vars upstream env).2.store ∧
    ∀ p ∈ (executeGraphQL query vars upstream env).2.store,
      p.2.createdAt ≤ p.2.updatedAt := by
  suffices h : WFat (executeGraphQL query vars upstream env).2.now
      (executeGraphQL query vars upstream env).2.store by
    exact ⟨h, fun p hp => (h p hp).1⟩
  unfold executeGraphQL
  cases hcl : classifyOperation query with
  | hello => exact hwf
  | apiInfo =>
    simp only [tick]
    exact WFat_mono _ _ _ (Nat.le_succ _) hwf
  | getChatSession =>
    cases hres : resolveArg vars query "id" with
    | none => exact hwf
    | some v =>
      cases v with
      | str sid =>
        by_cases hs : sid = ""
        · simp only [hs, if_pos rfl]
          exact hwf
        · simp only [if_neg hs]
          exact hwf
      | num n => by_cases ht : truthy (.num n) = true <;> simp only [ht] <;> simp <;> exact hwf
      | boolean b => by_cases ht : truthy (.boolean b) = true <;> simp only [ht] <;> simp <;> exact hwf
      | null => by_cases ht : truthy .null = true <;> simp only [ht] <;> simp <;> exact hwf
  | createChatSession =>
    simp only [genId, tick]
    exact WFat_set _ _ _ _ (WFat_mono _ _ _ (by omega) hwf)
      (by show env.now ≤ env.now + 1; omega) (by show env.now + 1 < env.now + 2; omega)
  | clearChatSession =>
    cases hres : resolveArg vars query "sessionId" with
    | none => exact hwf
    | some v =>
      cases v with
      | str sid =>
        by_cases hs : sid = ""
        · simp only [hs, if_pos rfl]
          exact hwf
        · simp only [if_neg hs]
          cases hget : mapGet env.store sid with
          | none => exact hwf
          | some s =>
            simp only [tick]
            have hws : s.createdAt ≤ s.updatedAt ∧ s.updatedAt < env.now :=
              hwf _ (mapGet_mem _ _ _ hget)
            exact WFat_set _ _ _ _ (WFat_mono _ _ _ (by omega) hwf)
              (by show s.createdAt ≤ env.now; omega) (by show env.now < env.now + 1; omega)
      | num n => by_cases ht : truthy (.num n) = true <;> simp only [ht] <;> simp <;> exact hwf
      | boolean b => by_cases ht : truthy (.boolean b) = true <;> simp only [ht] <;> simp <;> exact hwf
      | null => by_cases ht : truthy .null = true <;> simp only [ht] <;> simp <;> exact hwf
  | deleteChatSession =>
    cases hres : resolveArg vars query "sessionId" with
    | none => exact hwf
    | some v =>
      cases v with
      | str sid =>
        by_cases hs : sid = ""
        · simp only [hs, if_pos rfl]
          exact hwf
        · simp only [if_neg hs]
          exact WFat_delete _ _ _ hwf
      | num n => by_cases ht : truthy (.num n) = true <;> simp only [ht] <;> simp <;> exact hwf
      | boolean b => by_cases ht : truthy (.boolean b) = true <;> simp only [ht] <;> simp <;> exact hwf
      | null => by_cases ht : truthy .null = true <;> simp only [ht] <;> simp <;> exact hwf
  | sendMessage =>
    show WFat (handleSendMessage query vars upstream env).2.now
      (handleSendMessage query vars upstream env).2.store
    cases hm : resolveArg vars query "message" with
    | none =>
      unfold handleSendMessage
      rw [hm]
      exact hwf
    | some v =>
      cases v with
      | num n =>
        unfold handleSendMessage
        rw [hm]
        exact hwf
      | boolean b =>
        unfold handleSendMessage
        rw [hm]
        exact hwf
      | null =>
        unfold handleSendMessage
        rw [hm]
        exact hwf
      | str s =>
        unfold handleSendMessage
        rw [hm]
        cases htrim : (jsTrim s).isEmpty with
        | true =>
          simp only [htrim, if_true]
          exact hwf
        | false =>
          simp only [htrim, Bool.false_eq_true, if_false]
          cases hbase : resolvedSession vars query env with
          | some s0 =>
            simp only [genId, tick]
            obtain ⟨sid0, hget0⟩ := resolvedSession_get vars query env s0 hbase
            have hws0 : s0.createdAt ≤ s0.updatedAt ∧ s0.updatedAt < env.now :=
              hwf _ (mapGet_mem _ _ _ hget0)
            cases hcall : callDeepSeekAPI
                (s0.messages ++ [⟨"id_" ++ toString env.nextId, "user", jsTrim s, env.now⟩])
                upstream (env.now + 1) with
            | error e =>
              try dsimp only
              refine WFat_set _ _ _ _ ?_ (by show s0.createdAt ≤ env.now + 1; omega)
                (by show env.now + 1 < env.now + 2; omega)
              exact WFat_set _ _ _ _ (WFat_mono _ _ _ (by omega) hwf)
                (by show s0.createdAt ≤ s0.updatedAt; omega)
                (by show s0.updatedAt < env.now + 2; omega)
            | ok p =>
              obtain ⟨evs, n'⟩ := p
              have hn' : env.now + 1 ≤ n' := callDeepSeekAPI_ok_now _ _ _ _ _ hcall
              try dsimp only
              try simp only [genId, tick]
              refine WFat_set _ _ _ _ ?_ (by show s0.createdAt ≤ n' + 1; omega)
                (by show n' + 1 < n' + 2; omega)
              exact WFat_set _ _ _ _ (WFat_mono _ _ _ (by omega) hwf)
                (by show s0.createdAt ≤ s0.updatedAt; omega)
                (by show s0.updatedAt < n' + 2; omega)
          | none =>
            simp only [genId, tick]
            cases hcall : callDeepSeekAPI
                ([] ++ [⟨"id_" ++ toString (env.nextId + 1), "user", jsTrim s,
                  env.now + 1 + 1⟩])
                upstream (env.now + 1 + 1 + 1) with
            | error e =>
              try dsimp only
              apply WFat_set
              · apply WFat_set
                · apply WFat_set
                  · exact WFat_mono _ _ _ (by omega) hwf
                  · show env.now ≤ env.now + 1
                    omega
                  · show env.now + 1 < env.now + 1 + 1 + 1 + 1
                    omega
                · show env.now ≤ env.now + 1
                  omega
                · show env.now + 1 < env.now + 1 + 1 + 1 + 1
                  omega
              · show env.now ≤ env.now + 1 + 1 + 1
                omega
              · show env.now + 1 + 1 + 1 < env.now + 1 + 1 + 1 + 1
                omega
            | ok p =>
              obtain ⟨evs, n'⟩ := p
              have hn' : env.now + 1 + 1 + 1 ≤ n' :=
                callDeepSeekAPI_ok_now _ _ _ _ _ hcall
              try dsimp only
              try simp only [genId, tick]
              apply WFat_set
              · apply WFat_set
                · apply WFat_set
                  · exact WFat_mono _ _ _ (by omega) hwf
                  · show env.now ≤ env.now + 1
                    omega
                  · show env.now + 1 < n' + 1 + 1
                    omega
                · show env.now ≤ env.now + 1
                  omega
                · show env.now + 1 < n' + 1 + 1
                  omega
              · show env.now ≤ n' + 1
                omega
              · show n' + 1 < n' + 1 + 1
                omega
  | unknown => exact hwf

/-- Witness for `store_invariant`: a createChatSession run from the empty
environment. -/
theorem store_invariant_witness :
    WFat (executeGraphQL "mutation \x7b createChatSession \x7b id \x7d \x7d" []
        ⟨true, 200, "", none⟩ env0).2.now
      (executeGraphQL "mutation \x7b createChatSession \x7b id \x7d \x7d" []
        ⟨true, 200, "", none⟩ env0).2.store ∧
    ∀ p ∈ (executeGraphQL "mutation \x7b createChatSession \x7b id \x7d \x7d" []
        ⟨true, 200, "", none⟩ env0).2.store,
      p.2.createdAt ≤ p.2.updatedAt :=
  store_invariant _ [] ⟨true, 200, "", none⟩ env0 (by unfold WFat env0; decide)

/-! ## Claim C7 — shape of the decoded event sequence -/

def isStartE : SseEvent → Bool
  | .startEv _ => true
  | _ => false

def isContentE : SseEvent → Bool
  | .contentEv _ => true
  | _ => false

def isEndE : SseEvent → Bool
  | .endEv _ => true
  | _ => false

/-- The Start/Content subsequence of an event list. -/
def scOf (evs : List SseEvent) : List SseEvent :=
  evs.filter (fun e => isStartE e || isContentE e)

/-- Does a parsed payload carry a truthy `error` field? -/
def errTruthy (p : Json) : Bool :=
  match jget p "error" with
  | some e => jsTruthy e
  | none => false

/-- A complete line that does not close the stream: either not a `data:`
line, or a payload that is not the sentinel and carries no truthy
`error` field (malformed payloads are non-fatal). -/
def cleanLine (l : List Char) : Bool :=
  !(decide (l.take 6 = "data: ".data)) ||
    (decide (¬ l.drop 6 = "[DONE]".data) &&
      (match parseJson (l.drop 6) with
       | some p => !errTruthy p
       | none => true))

/-- Decoder-state invariant: before the first content chunk no Start or
Content marker was emitted; afterwards the Start/Content subsequence is a
single Start followed by a non-empty run of Content markers; no End
marker is ever emitted mid-stream. -/
def SseInv (st : SseSt) : Prop :=
  (st.isFirst = true → scOf st.events = []) ∧
  (st.isFirst = false → ∃ t cs, scOf st.events = .startEv t :: cs ∧ cs ≠ [] ∧
    ∀ e ∈ cs, isContentE e = true) ∧
  (∀ e ∈ st.events, isEndE e = false)

/-- The payloads the decoder hands to `JSON.parse`: every complete
`data:` line's payload except the sentinel, which is checked first. -/
def lineParsedPayloads (l : List Char) : List (List Char) :=
  if l.take 6 = "data: ".data then
    (if l.drop 6 = "[DONE]".data then [] else [l.drop 6])
  else []

def parsedPayloads (lines : List (List Char)) : List (List Char) :=
  lines.foldr (fun l acc => lineParsedPayloads l ++ acc) []

/-- The complete lines the chunk loop processes: split each buffered
chunk at newlines and keep the trailing fragment as the next buffer. -/
def gatherLines : List Char → List (List Char) → List (List Char)
  | _, [] => []
  | buffer, c :: cs =>
    (splitNl (buffer ++ c)).dropLast ++
      gatherLines ((splitNl (buffer ++ c)).getLastD []) cs

/-- The sentinel is never passed to `JSON.parse`. -/
theorem parsedPayloads_no_sentinel (lines : List (List Char)) :
    "[DONE]".data ∉ parsedPayloads lines := by
  induction lines with
  | nil => simp [parsedPayloads]
  | cons l ls ih =>
    intro h
    rcases List.mem_append.mp h with h | h
    · unfold lineParsedPayloads at h
      by_cases h1 : l.take 6 = "data: ".data
      · rw [if_pos h1] at h
        by_cases h2 : l.drop 6 = "[DONE]".data
        · rw [if_pos h2] at h
          cases h
        · rw [if_neg h2] at h
          exact h2 (List.mem_singleton.mp h).symm
      · rw [if_neg h1] at h
        cases h
    · exact ih h

/-- Processing a concatenation of line lists runs them in sequence, with
early exit on a close. -/
theorem processLineList_append (st : SseSt) (l1 l2 : List (List Char)) :
    processLineList st (l1 ++ l2) =
      match processLineList st l1 with
      | .cont st' => processLineList st' l2
      | .halt e n => .halt e n := by
  induction l1 generalizing st with
  | nil => rfl
  | cons l ls ih =>
    simp only [List.cons_append, processLineList]
    cases handleLine st l with
    | cont st' => exact ih st'
    | halt e n => rfl

/-- The chunk loop is the line loop over the gathered complete lines,
followed by the end-of-body marker when no close happened. -/
theorem sseLoop_eq_gather (chunks : List (List Char)) (st : SseSt)
    (buffer : List Char) :
    sseLoop st buffer chunks =
      match processLineList st (gatherLines buffer chunks) with
      | .halt e n => (e, n)
      | .cont st' =>
        if st'.hasError then (st'.events, st'.now)
        else (st'.events ++ [.endEv st'.now], st'.now + 1) := by
  induction chunks generalizing st buffer with
  | nil => rfl
  | cons c cs ih =>
    unfold sseLoop gatherLines
    rw [processLineList_append]
    cases h : processLineList st (splitNl (buffer ++ c)).dropLast with
    | halt e n => simp [h]
    | cont st' =>
      simp only [h]
      exact ih st' _

/-- Appending an error marker leaves the invariant intact. -/
theorem errorAppend_inv (st : SseSt) (v : Json) (h : SseInv st) :
    SseInv { st with events := st.events ++ [.errorEv v] } := by
  obtain ⟨h1, h2, h3⟩ := h
  refine ⟨?_, ?_, ?_⟩
  · intro hf
    simp only [scOf, List.filter_append] at *
    rw [h1 hf]
    simp [isStartE, isContentE]
  · intro hf
    obtain ⟨t, cs, hsc, hne, hall⟩ := h2 hf
    refine ⟨t, cs, ?_, hne, hall⟩
    simp only [scOf, List.filter_append] at *
    rw [hsc]
    simp [isStartE, isContentE]
  · intro e he
    rcases List.mem_append.mp he with he | he
    · exact h3 e he
    · rcases List.mem_singleton.mp he with rfl
      rfl

/-- The content branch never closes and preserves the invariant. -/
theorem contentStep_inv (st : SseSt) (parsed : Json) (h : SseInv st) :
    ∃ st', contentStep st parsed = .cont st' ∧ SseInv st' := by
  obtain ⟨h1, h2, h3⟩ := h
  unfold contentStep
  cases hd : deltaContent parsed with
  | none => exact ⟨st, rfl, h1, h2, h3⟩
  | some c =>
    dsimp only
    by_cases hc : jsTruthy c = true
    · rw [if_pos hc]
      cases hf : st.isFirst with
      | true =>
        rw [if_pos rfl]
        refine ⟨_, rfl, ?_, ?_, ?_⟩
        · intro hcontra
          simp at hcontra
        · intro _
          refine ⟨st.now, [.contentEv c], ?_, by simp, ?_⟩
          · show scOf (st.events ++ [.startEv st.now, .contentEv c]) = _
            unfold scOf
            rw [List.filter_append]
            have h0 := h1 hf
            unfold scOf at h0
            rw [h0]
            rfl
          · intro e he
            have he' : e = .contentEv c := List.mem_singleton.mp he
            subst he'
            rfl
        · intro e he
          have he' : e ∈ st.events ++ [.startEv st.now, .contentEv c] := he
          rcases List.mem_append.mp he' with hm | hm
          · exact h3 e hm
          · rcases (by simpa using hm : e = .startEv st.now ∨ e = .contentEv c) with
              rfl | rfl <;> rfl
      | false =>
        rw [if_neg (by simp [hf])]
        obtain ⟨t, cs, hsc, hne, hall⟩ := h2 hf
        refine ⟨_, rfl, ?_, ?_, ?_⟩
        · intro hcontra
          simp at hcontra
        · intro _
          refine ⟨t, cs ++ [.contentEv c], ?_, by simp, ?_⟩
          · show scOf (st.events ++ [.contentEv c]) = _
            unfold scOf
            rw [List.filter_append]
            unfold scOf at hsc
            rw [hsc]
            rfl
          · intro e he
            rcases List.mem_append.mp he with hm | hm
            · exact hall e hm
            · have he' : e = .contentEv c := List.mem_singleton.mp hm
              subst he'
              rfl
        · intro e he
          have he' : e ∈ st.events ++ [.contentEv c] := he
          rcases List.mem_append.mp he' with hm | hm
          · exact h3 e hm
          · have hm' : e = .contentEv c := List.mem_singleton.mp hm
            subst hm'
            rfl
    · rw [if_neg hc]
      exact ⟨st, rfl, h1, h2, h3⟩

/-- A clean line never closes the stream and preserves the invariant. -/
theorem handleLine_clean_inv (st : SseSt) (l : List Char) (h : SseInv st)
    (hcl : cleanLine l = true) :
    ∃ st', handleLine st l = .cont st' ∧ SseInv st' := by
  obtain ⟨h1, h2, h3⟩ := h
  unfold handleLine
  by_cases ht : l.take 6 = "data: ".data
  · rw [if_pos ht]
    have hcl2 : ¬ l.drop 6 = "[DONE]".data ∧
        (match parseJson (l.drop 6) with
         | some p => !errTruthy p
         | none => true) = true := by
      unfold cleanLine at hcl
      rw [decide_eq_true ht] at hcl
      simpa using hcl
    rw [if_neg hcl2.1]
    cases hp : parseJson (l.drop 6) with
    | none =>
      exact ⟨_, rfl, errorAppend_inv st _ ⟨h1, h2, h3⟩⟩
    | some parsed =>
      cases parsed with
      | null =>
        exact ⟨_, rfl, errorAppend_inv st _ ⟨h1, h2, h3⟩⟩
        | jbool b =>
          cases he : jget (Json.jbool b) "error" with
          | none =>
            simp only [he]
            exact contentStep_inv st _ ⟨h1, h2, h3⟩
          | some errVal =>
            simp only [he]
            have hv : jsTruthy errVal = false := by
              have := hcl2.2
              rw [hp] at this
              dsimp only at this
              unfold errTruthy at this
              rw [he] at this
              simpa using this
            rw [if_neg (by simp [hv])]
            exact contentStep_inv st _ ⟨h1, h2, h3⟩
        | jnum x =>
          cases he : jget (Json.jnum x) "error" with
          | none =>
            simp only [he]
            exact contentStep_inv st _ ⟨h1, h2, h3⟩
          | some errVal =>
            simp only [he]
            have hv : jsTruthy errVal = false := by
              have := hcl2.2
              rw [hp] at this
              dsimp only at this
              unfold errTruthy at this
              rw [he] at this
              simpa using this
            rw [if_neg (by simp [hv])]
            exact contentStep_inv st _ ⟨h1, h2, h3⟩
        | jstr x =>
          cases he : jget (Json.jstr x) "error" with
          | none =>
            simp only [he]
            exact contentStep_inv st _ ⟨h1, h2, h3⟩
          | some errVal =>
            simp only [he]
            have hv : jsTruthy errVal = false := by
              have := hcl2.2
              rw [hp] at this
              dsimp only at this
              unfold errTruthy at this
              rw [he] at this
              simpa using this
            rw [if_neg (by simp [hv])]
            exact contentStep_inv st _ ⟨h1, h2, h3⟩
        | jarr xs =>
          cases he : jget (Json.jarr xs) "error" with
          | none =>
            simp only [he]
            exact contentStep_inv st _ ⟨h1, h2, h3⟩
          | some errVal =>
            simp only [he]
            have hv : jsTruthy errVal = false := by
              have := hcl2.2
              rw [hp] at this
              dsimp only at this
              unfold errTruthy at this
              rw [he] at this
              simpa using this
            rw [if_neg (by simp [hv])]
            exact contentStep_inv st _ ⟨h1, h2, h3⟩
        | jobj fs =>
          cases he : jget (Json.jobj fs) "error" with
          | none =>
            simp only [he]
            exact contentStep_inv st _ ⟨h1, h2, h3⟩
          | some errVal =>
            simp only [he]
            have hv : jsTruthy errVal = false := by
              have := hcl2.2
              rw [hp] at this
              dsimp only at this
              unfold errTruthy at this
              rw [he] at this
              simpa using this
            rw [if_neg (by simp [hv])]
            exact contentStep_inv st _ ⟨h1, h2, h3⟩
  · rw [if_neg ht]
    exact ⟨st, rfl, h1, h2, h3⟩

/-- The sentinel line closes the stream with the events emitted so far
and no JSON parsing. -/
theorem handleLine_sentinel (st : SseSt) :
    handleLine st "data: [DONE]".data = .halt st.events st.now := rfl

/-- Processing clean lines never closes and preserves the invariant. -/
theorem processLineList_clean_inv (pre : List (List Char)) (st : SseSt)
    (h : SseInv st) (hclean : ∀ l ∈ pre, cleanLine l = true) :
    ∃ st', processLineList st pre = .cont st' ∧ SseInv st' := by
  induction pre generalizing st with
  | nil => exact ⟨st, rfl, h⟩
  | cons l ls ih =>
    obtain ⟨st1, hstep, hinv1⟩ :=
      handleLine_clean_inv st l h (hclean l (List.mem_cons_self _ _))
    obtain ⟨st2, hrest, hinv2⟩ :=
      ih st1 hinv1 (fun l' hl' => hclean l' (List.mem_cons_of_mem _ hl'))
    refine ⟨st2, ?_, hinv2⟩
    unfold processLineList
    rw [hstep]
    exact hrest

/-- C7 (amended): for every body whose complete lines reach the `[DONE]`
sentinel after only clean lines, the decoded sequence has a single
synthetic Start event immediately before the first Content event (or no
Start/Content events at all when no content arrived), the sentinel line
is never passed to `JSON.parse`, and — contrary to the original claim —
the sequence contains no trailing End event: the stream closes at the
sentinel, and the End marker is emitted only when the body ends without
the sentinel. -/
theorem sse_sentinel_shape (chunks : List String) (messages : List ChatMessage)
    (upstream : Upstream) (now : Nat) (pre rest : List (List Char))
    (hok : upstream.ok = true) (hbody : upstream.body = some chunks)
    (hsplit : gatherLines [] (chunks.map String.data) =
      pre ++ "data: [DONE]".data :: rest)
    (hclean : ∀ l ∈ pre, cleanLine l = true) :
    ∃ evs n,
      getChatCompletion messages upstream now = .ok (evs, n) ∧
      (scOf evs = [] ∨ ∃ t cs, scOf evs = .startEv t :: cs ∧ cs ≠ [] ∧
        ∀ e ∈ cs, isContentE e = true) ∧
      (∀ e ∈ evs, isEndE e = false) ∧
      "[DONE]".data ∉ parsedPayloads (gatherLines [] (chunks.map String.data)) := by
  have hinit : SseInv ⟨true, false, [], now⟩ := by
    refine ⟨fun _ => rfl, fun hcontra => ?_, fun e he => ?_⟩
    · simp at hcontra
    · simp [scOf] at he
  obtain ⟨st', hrun, hinv⟩ :=
    processLineList_clean_inv pre ⟨true, false, [], now⟩ hinit hclean
  refine ⟨st'.events, st'.now, ?_, ?_, hinv.2.2, parsedPayloads_no_sentinel _⟩
  · have hstop : processLineList st' ("data: [DONE]".data :: rest) =
        .halt st'.events st'.now := by
      unfold processLineList
      rw [handleLine_sentinel]
    have hall : processLineList ⟨true, false, [], now⟩
        (pre ++ "data: [DONE]".data :: rest) = .halt st'.events st'.now := by
      rw [processLineList_append, hrun]
      exact hstop
    rw [getChatCompletion_ok messages upstream now chunks hok hbody,
      sseLoop_eq_gather, hsplit, hall]
  · cases hfirst : st'.isFirst with
    | true => exact Or.inl (hinv.1 hfirst)
    | false => exact Or.inr (hinv.2.1 hfirst)

/-- C7 counterexample: with the `Hello` content line followed by the
sentinel, the adapter's decoded sequence is exactly a Start and a
Content event — it does not end with a trailing End event after the
sentinel is seen. -/
theorem sse_no_trailing_end_counterexample :
    getChatCompletion [] exUpstream 0 =
      .ok ([.startEv 0, .contentEv (.jstr "Hello")], 1) ∧
    ([SseEvent.startEv 0, SseEvent.contentEv (.jstr "Hello")].all
      (fun e => !isEndE e)) = true :=
  ⟨rfl, rfl⟩

/-- Witness for `sse_sentinel_shape` at the example body. -/
theorem sse_sentinel_shape_witness :
    getChatCompletion [] exUpstream 0 =
      .ok ([.startEv 0, .contentEv (.jstr "Hello")], 1) ∧
    "[DONE]".data ∉ parsedPayloads (gatherLines []
      (["data: \x7b\"choices\":[\x7b\"delta\":\x7b\"content\":\"Hello\"\x7d\x7d]\x7d\n",
        "data: [DONE]\n"].map String.data)) := by
  have h := sse_sentinel_shape
    ["data: \x7b\"choices\":[\x7b\"delta\":\x7b\"content\":\"Hello\"\x7d\x7d]\x7d\n",
     "data: [DONE]\n"] [] exUpstream 0
    ["data: \x7b\"choices\":[\x7b\"delta\":\x7b\"content\":\"Hello\"\x7d\x7d]\x7d".data] []
    rfl rfl (by decide) (by decide)
  exact ⟨rfl, by decide⟩
